import Mathlib

/-!
Verification of the cell-state reconciliation subsystem of the libvirt
Jailhouse driver (`src/jailhouse/jailhouse_driver.c`).

The C code is shallowly embedded: the captured tool output is a `List Char`
(a C string; reads past the end of the list yield the NUL terminator
`'\x00'`), pointers into the buffer are positions (`Nat`), machine `int`
values are `Int` with the explicit `virStrToLong_i` range check, and
`size_t` counts that the driver lets go negative (`count = -1`) are `Int`.
Loops whose progress is not structural carry explicit fuel; the supplied
fuel is always sufficient (pass one of the CPU parser advances its cursor
by at least two positions per iteration and stops beyond position 24, so
at most 13 iterations happen; pass two performs at most `count`
iterations since `i` strictly increases).
-/

namespace Jailhouse

set_option maxRecDepth 16000

/-! ## C-string primitives -/

def nulChar : Char := '\x00'

/-- Reading a byte of the NUL-terminated buffer: past the end of the
captured output the C code sees the terminator. -/
def charAt (s : List Char) (i : Nat) : Char := s.getD i nulChar

/-- In-place store into the output buffer (`output[i] = c`). -/
def setAt (s : List Char) (i : Nat) (c : Char) : List Char := s.set i c

/-! ## `virStrToLong_i` (strtol with base 0)

`virStrToLong_i(s, &end, 0, &n)` calls `strtol(s, &p, 0)` and fails when
`errno` is set, no character was consumed (`p == s`), or the value does
not fit in `int`.  `strtol` with base 0 skips leading whitespace, accepts
an optional sign, then interprets a `0x`/`0X` prefix as hexadecimal, a
leading `0` as octal and anything else as decimal. -/

def isStrtolSpace (c : Char) : Bool :=
  c = ' ' || c = '\t' || c = '\n' || c = '\x0b' || c = '\x0c' || c = '\r'

/-- Value of a digit character in the given base, `none` if it is not a
digit of that base (digits `0-9`, letters continuing upward, as
`strtol` accepts them). -/
def digitValue? (base : Nat) (c : Char) : Option Nat :=
  if 48 ≤ c.toNat ∧ c.toNat ≤ 57 ∧ c.toNat - 48 < base then some (c.toNat - 48)
  else if 97 ≤ c.toNat ∧ c.toNat ≤ 122 ∧ c.toNat - 97 + 10 < base then
    some (c.toNat - 97 + 10)
  else if 65 ≤ c.toNat ∧ c.toNat ≤ 90 ∧ c.toNat - 65 + 10 < base then
    some (c.toNat - 65 + 10)
  else none

/-- Consume digits of `base` from the front of the list, returning the
accumulated value and the number of digits consumed. -/
def parseDigitsAux (base : Nat) : List Char → Nat → Nat → Nat × Nat
  | [], acc, k => (acc, k)
  | c :: cs, acc, k =>
    match digitValue? base c with
    | some v => parseDigitsAux base cs (acc * base + v) (k + 1)
    | none => (acc, k)

/-- Sign handling of `strtol`: the sign factor and the number of sign
characters consumed. -/
def strtolSign (c : Char) : Int × Nat :=
  if c = '-' then (-1, 1) else if c = '+' then (1, 1) else (1, 0)

/-- Base detection of `strtol` with base 0 on the string after sign:
`0x`/`0X` followed by a hex digit is hexadecimal (prefix of 2 consumed),
a leading `0` is octal, anything else decimal. -/
def strtolBasePfx (s2 : List Char) : Nat × Nat :=
  if charAt s2 0 = '0' ∧ (charAt s2 1 = 'x' ∨ charAt s2 1 = 'X') ∧
      (digitValue? 16 (charAt s2 2)).isSome then (16, 2)
  else if charAt s2 0 = '0' then (8, 0)
  else (10, 0)

/-- `strtol(s, &p, 0)`: returns the parsed value and the total number of
characters consumed, or `none` when no digit was consumed. -/
def strtolBase0 (s : List Char) : Option (Int × Nat) :=
  let ws := (s.takeWhile (fun c => isStrtolSpace c)).length
  let s1 := s.drop ws
  let sg := strtolSign (charAt s1 0)
  let s2 := s1.drop sg.2
  let bp := strtolBasePfx s2
  let vk := parseDigitsAux bp.1 (s2.drop bp.2) 0 0
  if vk.2 = 0 then none else some (sg.1 * (vk.1 : Int), ws + sg.2 + bp.2 + vk.2)

/-- `virStrToLong_i` with a non-NULL endptr: the `strtol` result plus the
`int`-range check.  Returns the value and the number of characters
consumed (the endptr offset). -/
def virStrToLong_i (s : List Char) : Option (Int × Nat) :=
  match strtolBase0 s with
  | none => none
  | some (v, k) =>
    if v < -2147483648 ∨ 2147483647 < v then none else some (v, k)

/-- `virStrToLong_i` with a NULL endptr: additionally fails when the
character after the consumed prefix is not the terminator. -/
def virStrToLong_i_full (s : List Char) : Option Int :=
  match virStrToLong_i s with
  | none => none
  | some (v, k) => if charAt s k = nulChar then some v else none

/-! ## `virJailhouseParseCPUs`

Two passes over the CPU field: the first counts the CPUs (`count` is
added `nextNumber - number` for a range, on `size_t`; we keep it as
`Int`), the second fills the array.  On any `virStrToLong_i` failure the
function frees the array and returns `0` with a NULL pointer — exactly
what it returns for a blank field.  `VIR_ALLOC_N` with a zero count sets
the pointer to NULL and succeeds; with a negative count (a huge `size_t`)
the allocation fails.  The allocation environment is the `allocOk`
argument. -/

/-- The `for (; number < nextNumber; number++) cpus[i++] = number + 1;`
loop: the values `n+1 .. m` in ascending order (empty when `m ≤ n`). -/
def intRangeAsc (n m : Int) : List Int :=
  (List.range (m - n).toNat).map (fun (t : Nat) => n + 1 + (t : Int))

/-- First pass: `count` the CPUs listed in the field starting at `pos`.
The loop runs `while (current <= output+CPULENGTH && *current != ' ')`
with `CPULENGTH = 24`. -/
def parseCPUsCount (s : List Char) : Nat → Nat → Int → Option Int
  | 0, _, _ => none
  | fuel + 1, pos, count =>
    if pos ≤ 24 ∧ charAt s pos ≠ ' ' then
      match virStrToLong_i (s.drop pos) with
      | none => none
      | some (n, k) =>
        if charAt s (pos + k) = '-' then
          match virStrToLong_i (s.drop (pos + k + 1)) with
          | none => none
          | some (m, k2) =>
            parseCPUsCount s fuel (pos + k + 1 + k2 + 1) (count + 1 + (m - n))
        else parseCPUsCount s fuel (pos + k + 1) (count + 1)
    else some count

/-- Second pass: fill the array, `while (i < count)`. -/
def parseCPUsFill (s : List Char) (count : Int) :
    Nat → Nat → Nat → List Int → Option (List Int)
  | 0, _, _, _ => none
  | fuel + 1, pos, i, acc =>
    if (i : Int) < count then
      match virStrToLong_i (s.drop pos) with
      | none => none
      | some (n, k) =>
        if charAt s (pos + k) = '-' then
          match virStrToLong_i (s.drop (pos + k + 1)) with
          | none => none
          | some (m, k2) =>
            parseCPUsFill s count fuel (pos + k + 1 + k2 + 1)
              (i + 1 + (m - n).toNat) (acc ++ n :: intRangeAsc n m)
        else parseCPUsFill s count fuel (pos + k + 1) (i + 1) (acc ++ [n])
    else some acc

/-- `virJailhouseParseCPUs`: returns the count and the allocated CPU
array (`none` is the NULL pointer).  A field beginning with a space means
no CPUs; every failure path ends in `VIR_FREE(cpus); *cpusptr = NULL;
return 0;`. -/
def virJailhouseParseCPUs (s : List Char) (allocOk : Bool) :
    Int × Option (List Int) :=
  if charAt s 0 = ' ' then (0, none)
  else
    match parseCPUsCount s 30 0 0 with
    | none => (0, none)
    | some count =>
      if count ≤ 0 then (0, none)
      else if allocOk = false then (0, none)
      else
        match parseCPUsFill s count (count.toNat + 1) 0 0 [] with
        | none => (0, none)
        | some cpus => (count, some cpus)

/-! ## Decimal rendering of naturals

Used only to *state* what a valid CPU-set field is (claim C5): the field
text is a comma-separated rendering of integers and ranges.  The fuel
argument is always sufficient (`n` has at most `n` digits). -/

def natToCharsAux : Nat → Nat → List Char → List Char
  | 0, _, acc => acc
  | _ + 1, 0, acc => acc
  | fuel + 1, n + 1, acc =>
    natToCharsAux fuel ((n + 1) / 10) (Nat.digitChar ((n + 1) % 10) :: acc)

/-- Canonical decimal rendering (no leading zeros, `"0"` for zero). -/
def natToChars (n : Nat) : List Char :=
  if n = 0 then ['0'] else natToCharsAux (n + 1) n []

def isDecDigit (c : Char) : Bool := 48 ≤ c.toNat && c.toNat ≤ 57

/-- The characters that can legitimately follow a number inside a CPU
field: a comma, a range dash, or the terminating space. -/
def isSepCh (c : Char) : Bool := c = ',' || c = '-' || c = ' '

theorem natToCharsAux_fuelIrrel :
    ∀ (fuel fuel' n : Nat) (acc : List Char), n < fuel → n < fuel' →
      natToCharsAux fuel n acc = natToCharsAux fuel' n acc := by
  intro fuel
  induction fuel with
  | zero => intro fuel' n acc h; omega
  | succ f ih =>
    intro fuel' n acc h h'
    match fuel', n with
    | f' + 1, 0 => rfl
    | f' + 1, n + 1 =>
      show natToCharsAux f ((n + 1) / 10) _ = natToCharsAux f' ((n + 1) / 10) _
      have hd : (n + 1) / 10 < n + 1 := Nat.div_lt_self (Nat.succ_pos n) (by omega)
      exact ih f' ((n + 1) / 10) _ (by omega) (by omega)

theorem natToCharsAux_acc :
    ∀ (fuel n : Nat) (acc : List Char),
      natToCharsAux fuel n acc = natToCharsAux fuel n [] ++ acc := by
  intro fuel
  induction fuel with
  | zero => intro n acc; rfl
  | succ f ih =>
    intro n acc
    match n with
    | 0 => rfl
    | n + 1 =>
      show natToCharsAux f ((n + 1) / 10) (Nat.digitChar ((n + 1) % 10) :: acc)
        = natToCharsAux f ((n + 1) / 10) [Nat.digitChar ((n + 1) % 10)] ++ acc
      rw [ih ((n + 1) / 10) (Nat.digitChar ((n + 1) % 10) :: acc),
        ih ((n + 1) / 10) [Nat.digitChar ((n + 1) % 10)], List.append_assoc]
      rfl

theorem natToChars_small (n : Nat) (h : n < 10) :
    natToChars n = [Nat.digitChar n] := by
  match n with
  | 0 => rfl
  | n + 1 =>
    show natToCharsAux (n + 2) (n + 1) [] = _
    have h10 : (n + 1) / 10 = 0 := Nat.div_eq_of_lt h
    have hm : (n + 1) % 10 = n + 1 := Nat.mod_eq_of_lt h
    show natToCharsAux (n + 1) ((n + 1) / 10) [Nat.digitChar ((n + 1) % 10)] = _
    rw [h10, hm]
    match n with
    | m => rfl

theorem natToChars_decomp (n : Nat) (h : 10 ≤ n) :
    natToChars n = natToChars (n / 10) ++ [Nat.digitChar (n % 10)] := by
  match n, h with
  | n + 1, h =>
    show natToCharsAux (n + 2) (n + 1) [] = _
    show natToCharsAux (n + 1) ((n + 1) / 10) [Nat.digitChar ((n + 1) % 10)] = _
    rw [natToCharsAux_acc]
    have hd1 : 1 ≤ (n + 1) / 10 := Nat.le_div_iff_mul_le (by omega) |>.mpr (by omega)
    have hd2 : (n + 1) / 10 < n + 1 := Nat.div_lt_self (Nat.succ_pos n) (by omega)
    rw [natToCharsAux_fuelIrrel (n + 1) ((n + 1) / 10 + 1) ((n + 1) / 10) [] hd2
      (Nat.lt_succ_self _)]
    have : natToChars ((n + 1) / 10) = natToCharsAux ((n + 1) / 10 + 1) ((n + 1) / 10) [] := by
      unfold natToChars
      rw [if_neg (by omega)]
    rw [this]

theorem natToChars_ne_nil (n : Nat) : natToChars n ≠ [] := by
  rcases Nat.lt_or_ge n 10 with h | h
  · rw [natToChars_small n h]; simp
  · rw [natToChars_decomp n h]; simp

theorem natToChars_all_dec (n : Nat) :
    ∀ c ∈ natToChars n, isDecDigit c = true := by
  induction n using Nat.strong_induction_on with
  | _ n ih =>
    rcases Nat.lt_or_ge n 10 with h | h
    · rw [natToChars_small n h]
      intro c hc
      simp only [List.mem_singleton] at hc
      subst hc
      interval_cases n <;> decide
    · rw [natToChars_decomp n h]
      intro c hc
      rcases List.mem_append.mp hc with hc | hc
      · exact ih (n / 10) (Nat.div_lt_self (by omega) (by omega)) c hc
      · simp only [List.mem_singleton] at hc
        subst hc
        have : n % 10 < 10 := Nat.mod_lt _ (by omega)
        interval_cases h : n % 10 <;> decide

theorem natToChars_head_ne_zero (n : Nat) (h1 : 1 ≤ n) :
    charAt (natToChars n) 0 ≠ '0' := by
  induction n using Nat.strong_induction_on with
  | _ n ih =>
    rcases Nat.lt_or_ge n 10 with h | h
    · rw [natToChars_small n h]
      interval_cases n <;> decide
    · rw [natToChars_decomp n h]
      have hne := natToChars_ne_nil (n / 10)
      have hd1 : 1 ≤ n / 10 := Nat.le_div_iff_mul_le (by omega) |>.mpr (by omega)
      have := ih (n / 10) (Nat.div_lt_self (by omega) (by omega)) hd1
      rcases hx : natToChars (n / 10) with _ | ⟨c, cs⟩
      · exact absurd hx hne
      · rw [hx] at this
        simpa [charAt] using this

/-- Decimal value of a digit string, as the parser accumulates it. -/
def digitsVal (l : List Char) : Nat :=
  l.foldl (fun a c => a * 10 + (c.toNat - 48)) 0

theorem natToChars_val (n : Nat) : digitsVal (natToChars n) = n := by
  induction n using Nat.strong_induction_on with
  | _ n ih =>
    rcases Nat.lt_or_ge n 10 with h | h
    · rw [natToChars_small n h]
      interval_cases n <;> decide
    · rw [natToChars_decomp n h]
      unfold digitsVal
      rw [List.foldl_append]
      have hv := ih (n / 10) (Nat.div_lt_self (by omega) (by omega))
      unfold digitsVal at hv
      rw [hv]
      have hm : n % 10 < 10 := Nat.mod_lt _ (by omega)
      have hdc : (Nat.digitChar (n % 10)).toNat - 48 = n % 10 := by
        interval_cases h : n % 10 <;> decide
      simp only [List.foldl_cons, List.foldl_nil, hdc]
      omega

/-! ## Position/suffix helpers for the pointer arithmetic -/

theorem charAt_drop (s : List Char) (n i : Nat) :
    charAt (s.drop n) i = charAt s (n + i) := by
  unfold charAt
  simp [List.getD, List.getElem?_drop]

theorem drop_add (s : List Char) (n i : Nat) :
    s.drop (n + i) = (s.drop n).drop i := by
  rw [List.drop_drop, Nat.add_comm]

theorem drop_append_len (l1 l2 : List Char) (i : Nat) :
    (l1 ++ l2).drop (l1.length + i) = l2.drop i := by
  rw [drop_add, List.drop_left]

theorem charAt_append_len (l1 l2 : List Char) (i : Nat) :
    charAt (l1 ++ l2) (l1.length + i) = charAt l2 i := by
  rw [← charAt_drop, List.drop_left]

theorem charAt_append_self (l1 l2 : List Char) :
    charAt (l1 ++ l2) l1.length = charAt l2 0 := by
  have h := charAt_append_len l1 l2 0
  rwa [Nat.add_zero] at h

theorem charAt_append_lt (l1 l2 : List Char) (i : Nat) (h : i < l1.length) :
    charAt (l1 ++ l2) i = charAt l1 i := by
  unfold charAt
  simp [List.getD, List.getElem?_append_left h]

/-! ## `strtol` on a canonical decimal rendering -/

theorem digitValue?_of_dec (c : Char) (h : isDecDigit c = true) :
    digitValue? 10 c = some (c.toNat - 48) := by
  unfold isDecDigit at h
  simp only [Bool.and_eq_true, decide_eq_true_eq] at h
  unfold digitValue?
  rw [if_pos ⟨h.1, h.2, by omega⟩]

theorem digitValue?_ten_to_eight (c : Char) (h : digitValue? 10 c = none) :
    digitValue? 8 c = none := by
  unfold digitValue? at h ⊢
  split at h
  · simp at h
  · split at h
    · simp at h
    · split at h
      · simp at h
      · next h1 h2 h3 =>
        rw [if_neg (by omega), if_neg (by omega), if_neg (by omega)]

theorem sep_not_digit (c : Char) (h : isSepCh c = true) :
    digitValue? 10 c = none ∧ c ≠ 'x' ∧ c ≠ 'X' := by
  unfold isSepCh at h
  simp only [Bool.or_eq_true, decide_eq_true_eq] at h
  rcases h with (h | h) | h <;> subst h <;> exact ⟨by decide, by decide, by decide⟩

theorem dec_not_space (c : Char) (h : isDecDigit c = true) : c ≠ ' ' := by
  intro hc
  subst hc
  exact absurd h (by decide)

theorem dec_not_sign (c : Char) (h : isDecDigit c = true) : c ≠ '-' ∧ c ≠ '+' := by
  constructor <;> intro hc <;> subst hc <;> exact absurd h (by decide)

theorem dec_not_strtolSpace (c : Char) (h : isDecDigit c = true) :
    isStrtolSpace c = false := by
  unfold isDecDigit at h
  simp only [Bool.and_eq_true, decide_eq_true_eq] at h
  unfold isStrtolSpace
  simp only [Bool.or_eq_false_iff, decide_eq_false_iff_not]
  refine ⟨⟨⟨⟨⟨?_, ?_⟩, ?_⟩, ?_⟩, ?_⟩, ?_⟩ <;> intro hc <;> subst hc <;>
    revert h <;> decide

theorem parseDigitsAux_append (ds : List Char) :
    ∀ (τ : List Char) (acc k : Nat),
      (∀ c ∈ ds, isDecDigit c = true) →
      digitValue? 10 (charAt τ 0) = none →
      parseDigitsAux 10 (ds ++ τ) acc k
        = (ds.foldl (fun a c => a * 10 + (c.toNat - 48)) acc, k + ds.length) := by
  induction ds with
  | nil =>
    intro τ acc k _ hτ
    simp only [List.nil_append, List.foldl_nil, List.length_nil, Nat.add_zero]
    match τ with
    | [] => rfl
    | c :: cs =>
      have hc : digitValue? 10 c = none := hτ
      show (match digitValue? 10 c with
        | some v => parseDigitsAux 10 cs (acc * 10 + v) (k + 1)
        | none => (acc, k)) = (acc, k)
      rw [hc]
  | cons d ds ih =>
    intro τ acc k hds hτ
    have hd : isDecDigit d = true := hds d (List.mem_cons_self d ds)
    have h1 : parseDigitsAux 10 (d :: (ds ++ τ)) acc k
        = parseDigitsAux 10 (ds ++ τ) (acc * 10 + (d.toNat - 48)) (k + 1) := by
      show (match digitValue? 10 d with
        | some v => parseDigitsAux 10 (ds ++ τ) (acc * 10 + v) (k + 1)
        | none => (acc, k)) = _
      rw [digitValue?_of_dec d hd]
    rw [List.cons_append, h1,
      ih τ _ _ (fun c hc => hds c (List.mem_cons_of_mem d hc)) hτ]
    simp only [List.foldl_cons, List.length_cons]
    congr 1
    omega

/-- `strtol` base 0 on a canonical decimal rendering followed by a
separator parses exactly the rendered value. -/
theorem strtolBase0_natToChars (a : Nat) (τ : List Char)
    (hτd : digitValue? 10 (charAt τ 0) = none)
    (hτx : charAt τ 0 ≠ 'x') (hτX : charAt τ 0 ≠ 'X') :
    strtolBase0 (natToChars a ++ τ)
      = some ((a : Int), (natToChars a).length) := by
  have hds := natToChars_all_dec a
  have hval := natToChars_val a
  have hne := natToChars_ne_nil a
  have hh0 := natToChars_head_ne_zero a
  rcases hx : natToChars a with _ | ⟨d, ds⟩
  · exact absurd hx hne
  rw [hx] at hds hval hh0
  have hd : isDecDigit d = true := hds d (List.mem_cons_self d ds)
  have hdws : isStrtolSpace d = false := dec_not_strtolSpace d hd
  obtain ⟨hdm, hdp⟩ := dec_not_sign d hd
  have hws : ((d :: (ds ++ τ)).takeWhile (fun c => isStrtolSpace c)) = [] := by
    rw [List.takeWhile_cons, hdws]
    rfl
  have hsg : strtolSign (charAt (d :: (ds ++ τ)) 0) = (1, 0) := by
    show strtolSign d = (1, 0)
    unfold strtolSign
    rw [if_neg hdm, if_neg hdp]
  rcases Nat.eq_zero_or_pos a with ha0 | hapos
  · -- a = 0 : the rendering is "0"; strtol takes the octal branch and
    -- consumes exactly the single digit.
    subst ha0
    have h0 : natToChars 0 = ['0'] := rfl
    rw [h0] at hx
    simp only [List.cons.injEq] at hx
    obtain ⟨hx1, hx2⟩ := hx
    subst hx1; subst hx2
    have hbp : strtolBasePfx (('0' : Char) :: ([] ++ τ)) = (8, 0) := by
      unfold strtolBasePfx
      rw [if_neg, if_pos (show charAt (('0' : Char) :: ([] ++ τ)) 0 = '0' from rfl)]
      rintro ⟨-, hh, -⟩
      have h1 : charAt (('0' : Char) :: ([] ++ τ)) 1 = charAt τ 0 := rfl
      rw [h1] at hh
      rcases hh with hh | hh
      · exact hτx hh
      · exact hτX hh
    have hstep : parseDigitsAux 8 (('0' : Char) :: τ) 0 0 = (0, 1) := by
      show (match digitValue? 8 '0' with
        | some v => parseDigitsAux 8 τ (0 * 8 + v) (0 + 1)
        | none => (0, 0)) = (0, 1)
      rw [show digitValue? 8 '0' = some 0 from by decide]
      match τ with
      | [] => rfl
      | c :: cs =>
        show (match digitValue? 8 c with
          | some v => parseDigitsAux 8 cs ((0 * 8 + 0) * 8 + v) (0 + 1 + 1)
          | none => (0 * 8 + 0, 0 + 1)) = (0, 1)
        rw [digitValue?_ten_to_eight c hτd]
    simp only [strtolBase0, List.cons_append, List.nil_append] at hws hsg hbp ⊢
    rw [hws]
    simp only [List.length_nil, List.drop_zero]
    rw [hsg]
    simp only [List.drop_zero]
    rw [hbp]
    simp only [List.drop_zero]
    rw [hstep]
    rfl
  · -- a ≥ 1 : the leading digit is nonzero, so the base is 10 and the
    -- whole rendering is consumed.
    have hdd : d ≠ '0' := by
      intro h
      exact (hh0 hapos) (by rw [show charAt (d :: ds) 0 = d from rfl, h])
    have hbp : strtolBasePfx (d :: (ds ++ τ)) = (10, 0) := by
      unfold strtolBasePfx
      rw [if_neg, if_neg]
      · intro h
        exact hdd h
      · rintro ⟨h1, -, -⟩
        exact hdd h1
    have hp : parseDigitsAux 10 (d :: ds ++ τ) 0 0
        = ((d :: ds).foldl (fun a c => a * 10 + (c.toNat - 48)) 0,
           0 + (d :: ds).length) :=
      parseDigitsAux_append (d :: ds) τ 0 0 hds hτd
    unfold digitsVal at hval
    simp only [List.cons_append] at hp hws hsg hbp
    simp only [strtolBase0, List.cons_append]
    rw [hws]
    simp only [List.length_nil, List.drop_zero]
    rw [hsg]
    simp only [List.drop_zero]
    rw [hbp]
    simp only [List.drop_zero]
    rw [hp, hval]
    rw [if_neg (by simp)]
    simp

/-- `virStrToLong_i` on a canonical decimal rendering followed by a
separator: succeeds with the rendered value when it fits in `int`. -/
theorem virStrToLong_i_natToChars (a : Nat) (τ : List Char)
    (ha : a ≤ 2147483647) (hτ : isSepCh (charAt τ 0) = true) :
    virStrToLong_i (natToChars a ++ τ)
      = some ((a : Int), (natToChars a).length) := by
  obtain ⟨hτd, hτx, hτX⟩ := sep_not_digit (charAt τ 0) hτ
  simp only [virStrToLong_i, strtolBase0_natToChars a τ hτd hτx hτX]
  rw [if_neg (by push_neg; constructor <;> omega)]

/-- `virStrToLong_i` with a NULL endptr on a NUL-terminated canonical
decimal rendering: the full-string parse succeeds. -/
theorem virStrToLong_i_full_natToChars (v : Nat) (Y : List Char)
    (hv : v ≤ 2147483647) :
    virStrToLong_i_full (natToChars v ++ nulChar :: Y) = some (v : Int) := by
  have h0 : charAt (nulChar :: Y) 0 = nulChar := rfl
  have hd : virStrToLong_i (natToChars v ++ nulChar :: Y)
      = some ((v : Int), (natToChars v).length) := by
    simp only [virStrToLong_i,
      strtolBase0_natToChars v (nulChar :: Y) (by rw [h0]; decide)
        (by rw [h0]; decide) (by rw [h0]; decide)]
    rw [if_neg (by push_neg; constructor <;> omega)]
  unfold virStrToLong_i_full
  simp only [hd]
  rw [if_pos (by rw [charAt_append_self, h0])]
/-! ## Valid CPU-set fields (claim C5) -/

/-- One comma-separated group of a CPU field: a single CPU or an
inclusive range `a-b`. -/
inductive CPUGroup where
  | single : Nat → CPUGroup
  | range : Nat → Nat → CPUGroup
deriving DecidableEq

/-- Text of one group as the tool prints it. -/
def groupChars : CPUGroup → List Char
  | .single a => natToChars a
  | .range a b => natToChars a ++ '-' :: natToChars b

/-- Text of a whole field: groups joined by commas. -/
def fieldChars : List CPUGroup → List Char
  | [] => []
  | [g] => groupChars g
  | g :: gs => groupChars g ++ ',' :: fieldChars gs

/-- A valid group: range bounds ascending, values fitting in `int`. -/
def GroupValid : CPUGroup → Prop
  | .single a => a ≤ 2147483647
  | .range a b => a ≤ b ∧ b ≤ 2147483647

instance : DecidablePred GroupValid := by
  intro g
  cases g <;> simp only [GroupValid] <;> infer_instance

/-- The explicit CPU list denoted by one group (ranges inclusive,
ascending). -/
def groupExpand : CPUGroup → List Int
  | .single a => [(a : Int)]
  | .range a b => (a : Int) :: intRangeAsc (a : Int) (b : Int)

/-- The explicit CPU list denoted by a field, groups in order. -/
def fieldExpand (gs : List CPUGroup) : List Int :=
  gs.foldr (fun g acc => groupExpand g ++ acc) []

/-- The count pass one computes for one group. -/
def groupSize : CPUGroup → Int
  | .single _ => 1
  | .range a b => 1 + ((b : Int) - (a : Int))

/-- The count pass one computes for a field. -/
def fieldSize (gs : List CPUGroup) : Int :=
  gs.foldr (fun g acc => groupSize g + acc) 0

/-! ### Helper facts about fields -/

theorem groupChars_ne_nil (g : CPUGroup) : groupChars g ≠ [] := by
  cases g with
  | single a => exact natToChars_ne_nil a
  | range a b =>
    unfold groupChars
    intro h
    exact natToChars_ne_nil a (List.append_eq_nil.mp h).1

theorem fieldChars_cons_cons (g g2 : CPUGroup) (gs : List CPUGroup) :
    fieldChars (g :: g2 :: gs) = groupChars g ++ ',' :: fieldChars (g2 :: gs) := rfl

theorem fieldChars_ne_nil (g : CPUGroup) (gs : List CPUGroup) :
    fieldChars (g :: gs) ≠ [] := by
  cases gs with
  | nil => exact groupChars_ne_nil g
  | cons g2 gs =>
    rw [fieldChars_cons_cons]
    intro h
    exact groupChars_ne_nil g (List.append_eq_nil.mp h).1

theorem length_le_fieldChars_length :
    ∀ gs : List CPUGroup, gs.length ≤ (fieldChars gs).length := by
  intro gs
  induction gs with
  | nil => simp [fieldChars]
  | cons g gs ih =>
    cases gs with
    | nil =>
      show 1 ≤ (groupChars g).length
      have := groupChars_ne_nil g
      cases h : groupChars g with
      | nil => exact absurd h this
      | cons c cs => simp
    | cons g2 gs2 =>
      rw [fieldChars_cons_cons]
      simp only [List.length_cons, List.length_append]
      have h1 : 1 ≤ (groupChars g).length := by
        have := groupChars_ne_nil g
        cases h : groupChars g with
        | nil => exact absurd h this
        | cons c cs => simp
      simp only [List.length_cons] at ih ⊢
      omega

theorem charAt_drop_zero (s : List Char) (pos : Nat) :
    charAt (s.drop pos) 0 = charAt s pos := by
  rw [charAt_drop, Nat.add_zero]

theorem charAt_zero_append (l1 l2 : List Char) (h : l1 ≠ []) :
    charAt (l1 ++ l2) 0 = charAt l1 0 := by
  apply charAt_append_lt
  cases l1 with
  | nil => exact absurd rfl h
  | cons c cs => simp

theorem natToChars_head_dec (a : Nat) :
    isDecDigit (charAt (natToChars a) 0) = true := by
  have hne := natToChars_ne_nil a
  have hall := natToChars_all_dec a
  cases h : natToChars a with
  | nil => exact absurd h hne
  | cons d ds =>
    rw [h] at hall
    exact hall d (List.mem_cons_self d ds)

theorem fieldChars_head_dec (g : CPUGroup) (gs : List CPUGroup) (τ : List Char) :
    isDecDigit (charAt (fieldChars (g :: gs) ++ τ) 0) = true := by
  have hgrp : ∀ X : List Char, isDecDigit (charAt (groupChars g ++ X) 0) = true := by
    intro X
    cases g with
    | single a =>
      show isDecDigit (charAt (natToChars a ++ X) 0) = true
      rw [charAt_zero_append _ _ (natToChars_ne_nil a)]
      exact natToChars_head_dec a
    | range a b =>
      show isDecDigit (charAt ((natToChars a ++ '-' :: natToChars b) ++ X) 0) = true
      rw [List.append_assoc, charAt_zero_append _ _ (natToChars_ne_nil a)]
      exact natToChars_head_dec a
  cases gs with
  | nil => exact hgrp τ
  | cons g2 gs2 =>
    rw [fieldChars_cons_cons, List.append_assoc]
    exact hgrp _

theorem groupSize_pos (g : CPUGroup) (h : GroupValid g) : 1 ≤ groupSize g := by
  cases g with
  | single a => exact le_refl 1
  | range a b =>
    obtain ⟨hab, -⟩ := h
    show (1 : Int) ≤ 1 + ((b : Int) - (a : Int))
    have : (a : Int) ≤ (b : Int) := by exact_mod_cast hab
    omega

theorem fieldSize_nonneg (gs : List CPUGroup) (h : ∀ g ∈ gs, GroupValid g) :
    0 ≤ fieldSize gs := by
  induction gs with
  | nil => exact le_refl 0
  | cons g gs ih =>
    show 0 ≤ groupSize g + fieldSize gs
    have h1 := groupSize_pos g (h g (List.mem_cons_self g gs))
    have h2 := ih (fun g2 hg2 => h g2 (List.mem_cons_of_mem _ hg2))
    omega

theorem length_le_fieldSize (gs : List CPUGroup) (h : ∀ g ∈ gs, GroupValid g) :
    (gs.length : Int) ≤ fieldSize gs := by
  induction gs with
  | nil => simp [fieldSize]
  | cons g gs ih =>
    show ((gs.length + 1 : Nat) : Int) ≤ groupSize g + fieldSize gs
    have h1 := groupSize_pos g (h g (List.mem_cons_self g gs))
    have h2 := ih (fun g2 hg2 => h g2 (List.mem_cons_of_mem _ hg2))
    push_cast
    push_cast at h2
    omega

theorem intRangeAsc_length (n m : Int) :
    (intRangeAsc n m).length = (m - n).toNat := by
  unfold intRangeAsc
  rw [List.length_map, List.length_range]

theorem fieldSize_eq_expand_length (gs : List CPUGroup)
    (h : ∀ g ∈ gs, GroupValid g) :
    fieldSize gs = ((fieldExpand gs).length : Int) := by
  induction gs with
  | nil => rfl
  | cons g gs ih =>
    show groupSize g + fieldSize gs = (((groupExpand g ++ fieldExpand gs)).length : Int)
    rw [List.length_append]
    rw [ih (fun g2 hg2 => h g2 (List.mem_cons_of_mem _ hg2))]
    have hg := h g (List.mem_cons_self g gs)
    cases g with
    | single a => simp [groupSize, groupExpand]
    | range a b =>
      obtain ⟨hab, -⟩ := hg
      unfold groupSize groupExpand
      simp only [List.length_cons, intRangeAsc_length]
      have hba : (0 : Int) ≤ (b : Int) - (a : Int) := by
        have : (a : Int) ≤ (b : Int) := by exact_mod_cast hab
        omega
      push_cast [Int.toNat_of_nonneg hba]
      ring

/-! ### Pass one on a rendered field -/

theorem parseCPUsCount_exit (s : List Char) (fuel : Nat) (pos : Nat)
    (count : Int) (hfuel : 1 ≤ fuel) (hsp : charAt s pos = ' ') :
    parseCPUsCount s fuel pos count = some count := by
  match fuel, hfuel with
  | f + 1, _ =>
    show (if pos ≤ 24 ∧ charAt s pos ≠ ' ' then _ else some count) = some count
    rw [if_neg (fun h => h.2 hsp)]

theorem parseCPUsCount_groups :
    ∀ (gs : List CPUGroup) (s τ : List Char) (pos : Nat) (count : Int)
      (fuel : Nat),
      gs ≠ [] →
      (∀ g ∈ gs, GroupValid g) →
      s.drop pos = fieldChars gs ++ ' ' :: ' ' :: τ →
      pos + (fieldChars gs).length ≤ 25 →
      gs.length + 1 ≤ fuel →
      parseCPUsCount s fuel pos count = some (count + fieldSize gs) := by
  intro gs
  induction gs with
  | nil => intro s τ pos count fuel h; exact absurd rfl h
  | cons g gs ih =>
    intro s τ pos count fuel hne hv hdrop hlen hfuel
    match fuel, hfuel with
    | f + 1, hfuel =>
    simp only [List.length_cons] at hfuel
    have hvg : GroupValid g := hv g (List.mem_cons_self g gs)
    have hlen1 : 1 ≤ (fieldChars (g :: gs)).length := by
      have := fieldChars_ne_nil g gs
      cases h : fieldChars (g :: gs) with
      | nil => exact absurd h this
      | cons c cs => simp
    have hcond : pos ≤ 24 ∧ charAt s pos ≠ ' ' := by
      constructor
      · omega
      · rw [← charAt_drop_zero, hdrop]
        exact dec_not_space _ (fieldChars_head_dec g gs _)
    show (if pos ≤ 24 ∧ charAt s pos ≠ ' ' then _ else _) = _
    rw [if_pos hcond]
    -- the group is rendered as digits (and for a range, dash and digits),
    -- followed by a separator: a comma before further groups, else the
    -- field-terminating space.
    cases g with
    | single a =>
      have haI : a ≤ 2147483647 := hvg
      cases gs with
      | nil =>
        have hdrop1 : s.drop pos = natToChars a ++ (' ' :: ' ' :: τ) := hdrop
        have hstr : virStrToLong_i (s.drop pos)
            = some ((a : Int), (natToChars a).length) := by
          rw [hdrop1]
          exact virStrToLong_i_natToChars a _ haI rfl
        simp only [hstr]
        have hch : charAt s (pos + (natToChars a).length) = ' ' := by
          rw [← charAt_drop (s := s) (n := pos), hdrop1, charAt_append_self]
          rfl
        rw [hch]
        rw [if_neg (by decide : ¬(' ' = '-'))]
        have hsp2 : charAt s (pos + (natToChars a).length + 1) = ' ' := by
          have : pos + (natToChars a).length + 1
              = pos + ((natToChars a).length + 1) := by omega
          rw [this, ← charAt_drop (s := s) (n := pos), hdrop1,
            charAt_append_len (natToChars a) (' ' :: ' ' :: τ) 1]
          rfl
        rw [parseCPUsCount_exit s f _ _ (by omega) hsp2]
        show some (count + 1) = some (count + fieldSize [CPUGroup.single a])
        have : fieldSize [CPUGroup.single a] = 1 := by
          show groupSize (CPUGroup.single a) + 0 = 1
          show (1 : Int) + 0 = 1
          omega
        rw [this]
      | cons g2 gs2 =>
        have hdrop1 : s.drop pos
            = natToChars a ++ (',' :: (fieldChars (g2 :: gs2) ++ ' ' :: ' ' :: τ)) := by
          rw [hdrop, fieldChars_cons_cons]
          show (groupChars (CPUGroup.single a) ++ ',' :: fieldChars (g2 :: gs2))
              ++ ' ' :: ' ' :: τ = _
          rw [List.append_assoc]
          rfl
        have hstr : virStrToLong_i (s.drop pos)
            = some ((a : Int), (natToChars a).length) := by
          rw [hdrop1]
          exact virStrToLong_i_natToChars a _ haI rfl
        simp only [hstr]
        have hch : charAt s (pos + (natToChars a).length) = ',' := by
          rw [← charAt_drop (s := s) (n := pos), hdrop1, charAt_append_self]
          rfl
        rw [hch]
        rw [if_neg (by decide : ¬(',' = '-'))]
        have hdrop2 : s.drop (pos + (natToChars a).length + 1)
            = fieldChars (g2 :: gs2) ++ ' ' :: ' ' :: τ := by
          have : pos + (natToChars a).length + 1
              = pos + ((natToChars a).length + 1) := by omega
          rw [this, drop_add, hdrop1, drop_append_len]
          rfl
        rw [ih s τ (pos + (natToChars a).length + 1) (count + 1) f
          (by simp) (fun g2 hg2 => hv g2 (List.mem_cons_of_mem _ hg2))
          hdrop2
          (by
            rw [fieldChars_cons_cons] at hlen
            simp only [List.length_append, List.length_cons] at hlen
            show pos + (natToChars a).length + 1
                + (fieldChars (g2 :: gs2)).length ≤ 25
            have : (groupChars (CPUGroup.single a)).length
                = (natToChars a).length := rfl
            omega)
          (by
            have hl : (g2 :: gs2).length = gs2.length + 1 := rfl
            simp only [List.length_cons] at hfuel ⊢
            omega)]
        show some (count + 1 + fieldSize (g2 :: gs2))
            = some (count + fieldSize (CPUGroup.single a :: g2 :: gs2))
        have : fieldSize (CPUGroup.single a :: g2 :: gs2)
            = 1 + fieldSize (g2 :: gs2) := rfl
        rw [this]
        exact congrArg some (by omega)
    | range a b =>
      obtain ⟨hab, hbI⟩ := hvg
      have haI : a ≤ 2147483647 := le_trans hab hbI
      -- both bounds parse; pass one then continues after the dash.
      have hgrp : groupChars (CPUGroup.range a b)
          = natToChars a ++ '-' :: natToChars b := rfl
      cases gs with
      | nil =>
        have hdrop1 : s.drop pos
            = natToChars a ++ ('-' :: (natToChars b ++ ' ' :: ' ' :: τ)) := by
          rw [hdrop]
          show (natToChars a ++ '-' :: natToChars b) ++ ' ' :: ' ' :: τ = _
          rw [List.append_assoc]
          rfl
        have hstr : virStrToLong_i (s.drop pos)
            = some ((a : Int), (natToChars a).length) := by
          rw [hdrop1]
          exact virStrToLong_i_natToChars a _ haI rfl
        simp only [hstr]
        have hch : charAt s (pos + (natToChars a).length) = '-' := by
          rw [← charAt_drop (s := s) (n := pos), hdrop1, charAt_append_self]
          rfl
        rw [hch, if_pos rfl]
        have hdrop2 : s.drop (pos + (natToChars a).length + 1)
            = natToChars b ++ ' ' :: ' ' :: τ := by
          have : pos + (natToChars a).length + 1
              = pos + ((natToChars a).length + 1) := by omega
          rw [this, drop_add, hdrop1, drop_append_len]
          rfl
        have hstr2 : virStrToLong_i (s.drop (pos + (natToChars a).length + 1))
            = some ((b : Int), (natToChars b).length) := by
          rw [hdrop2]
          exact virStrToLong_i_natToChars b _ hbI rfl
        simp only [hstr2]
        have hsp2 : charAt s (pos + (natToChars a).length + 1
            + (natToChars b).length + 1) = ' ' := by
          have : pos + (natToChars a).length + 1 + (natToChars b).length + 1
              = (pos + (natToChars a).length + 1) + ((natToChars b).length + 1) := by
            omega
          rw [this, ← charAt_drop (s := s), hdrop2,
            charAt_append_len (natToChars b) (' ' :: ' ' :: τ) 1]
          rfl
        rw [parseCPUsCount_exit s f _ _ (by omega) hsp2]
        show some (count + 1 + ((b : Int) - (a : Int)))
            = some (count + fieldSize [CPUGroup.range a b])
        have : fieldSize [CPUGroup.range a b]
            = 1 + ((b : Int) - (a : Int)) := by
          show groupSize (CPUGroup.range a b) + 0 = _
          show 1 + ((b : Int) - (a : Int)) + 0 = _
          omega
        rw [this]
        exact congrArg some (by omega)
      | cons g2 gs2 =>
        have hdrop1 : s.drop pos
            = natToChars a ++ ('-' :: (natToChars b
              ++ (',' :: (fieldChars (g2 :: gs2) ++ ' ' :: ' ' :: τ)))) := by
          rw [hdrop, fieldChars_cons_cons, hgrp]
          simp only [List.append_assoc, List.cons_append]
        have hstr : virStrToLong_i (s.drop pos)
            = some ((a : Int), (natToChars a).length) := by
          rw [hdrop1]
          exact virStrToLong_i_natToChars a _ haI rfl
        simp only [hstr]
        have hch : charAt s (pos + (natToChars a).length) = '-' := by
          rw [← charAt_drop (s := s) (n := pos), hdrop1, charAt_append_self]
          rfl
        rw [hch, if_pos rfl]
        have hdrop2 : s.drop (pos + (natToChars a).length + 1)
            = natToChars b ++ (',' :: (fieldChars (g2 :: gs2) ++ ' ' :: ' ' :: τ)) := by
          have : pos + (natToChars a).length + 1
              = pos + ((natToChars a).length + 1) := by omega
          rw [this, drop_add, hdrop1, drop_append_len]
          rfl
        have hstr2 : virStrToLong_i (s.drop (pos + (natToChars a).length + 1))
            = some ((b : Int), (natToChars b).length) := by
          rw [hdrop2]
          exact virStrToLong_i_natToChars b _ hbI rfl
        simp only [hstr2]
        have hdrop3 : s.drop (pos + (natToChars a).length + 1
            + (natToChars b).length + 1)
            = fieldChars (g2 :: gs2) ++ ' ' :: ' ' :: τ := by
          have : pos + (natToChars a).length + 1 + (natToChars b).length + 1
              = (pos + (natToChars a).length + 1) + ((natToChars b).length + 1) := by
            omega
          rw [this, drop_add, hdrop2, drop_append_len]
          rfl
        rw [ih s τ _ (count + 1 + ((b : Int) - (a : Int))) f
          (by simp) (fun g2 hg2 => hv g2 (List.mem_cons_of_mem _ hg2))
          hdrop3
          (by
            rw [fieldChars_cons_cons, hgrp] at hlen
            simp only [List.length_append, List.length_cons] at hlen
            omega)
          (by
            have hl : (g2 :: gs2).length = gs2.length + 1 := rfl
            simp only [List.length_cons] at hfuel ⊢
            omega)]
        show some (count + 1 + ((b : Int) - (a : Int)) + fieldSize (g2 :: gs2))
            = some (count + fieldSize (CPUGroup.range a b :: g2 :: gs2))
        have : fieldSize (CPUGroup.range a b :: g2 :: gs2)
            = 1 + ((b : Int) - (a : Int)) + fieldSize (g2 :: gs2) := by
          show groupSize (CPUGroup.range a b) + fieldSize (g2 :: gs2) = _
          show 1 + ((b : Int) - (a : Int)) + fieldSize (g2 :: gs2) = _
          omega
        rw [this]
        exact congrArg some (by omega)

/-! ### Pass two on a rendered field -/

theorem parseCPUsFill_exit (s : List Char) (count : Int) (fuel pos i : Nat)
    (acc : List Int) (hfuel : 1 ≤ fuel) (hi : ¬((i : Int) < count)) :
    parseCPUsFill s count fuel pos i acc = some acc := by
  match fuel, hfuel with
  | f + 1, _ =>
    show (if (i : Int) < count then _ else some acc) = some acc
    rw [if_neg hi]

theorem fieldExpand_cons (g : CPUGroup) (gs : List CPUGroup) :
    fieldExpand (g :: gs) = groupExpand g ++ fieldExpand gs := rfl

theorem fieldSize_cons (g : CPUGroup) (gs : List CPUGroup) :
    fieldSize (g :: gs) = groupSize g + fieldSize gs := rfl

theorem parseCPUsFill_groups :
    ∀ (gs : List CPUGroup) (s τ : List Char) (pos : Nat) (i : Nat)
      (acc : List Int) (count : Int) (fuel : Nat),
      gs ≠ [] →
      (∀ g ∈ gs, GroupValid g) →
      s.drop pos = fieldChars gs ++ ' ' :: ' ' :: τ →
      (i : Int) + fieldSize gs = count →
      gs.length + 1 ≤ fuel →
      parseCPUsFill s count fuel pos i acc = some (acc ++ fieldExpand gs) := by
  intro gs
  induction gs with
  | nil => intro s τ pos i acc count fuel h; exact absurd rfl h
  | cons g gs ih =>
    intro s τ pos i acc count fuel hne hv hdrop hcnt hfuel
    match fuel, hfuel with
    | f + 1, hfuel =>
    simp only [List.length_cons] at hfuel
    have hvg : GroupValid g := hv g (List.mem_cons_self g gs)
    have hsz := groupSize_pos g hvg
    have hszs := fieldSize_nonneg gs (fun g2 hg2 => hv g2 (List.mem_cons_of_mem _ hg2))
    have hcnt' : (i : Int) + (groupSize g + fieldSize gs) = count := by
      rw [← fieldSize_cons]; exact hcnt
    have hcond : (i : Int) < count := by omega
    show (if (i : Int) < count then _ else _) = _
    rw [if_pos hcond]
    cases g with
    | single a =>
      have haI : a ≤ 2147483647 := hvg
      have hgs1 : groupSize (CPUGroup.single a) = 1 := rfl
      cases gs with
      | nil =>
        have hdrop1 : s.drop pos = natToChars a ++ (' ' :: ' ' :: τ) := hdrop
        have hstr : virStrToLong_i (s.drop pos)
            = some ((a : Int), (natToChars a).length) := by
          rw [hdrop1]
          exact virStrToLong_i_natToChars a _ haI rfl
        simp only [hstr]
        have hch : charAt s (pos + (natToChars a).length) = ' ' := by
          rw [← charAt_drop (s := s) (n := pos), hdrop1, charAt_append_self]
          rfl
        rw [hch]
        rw [if_neg (by decide : ¬(' ' = '-'))]
        rw [parseCPUsFill_exit s count f _ (i + 1) _ (by omega)
          (by
            rw [hgs1] at hcnt'
            have : fieldSize ([] : List CPUGroup) = 0 := rfl
            rw [this] at hcnt'
            push_cast
            omega)]
        show some (acc ++ [(a : Int)])
            = some (acc ++ fieldExpand [CPUGroup.single a])
        rfl
      | cons g2 gs2 =>
        have hdrop1 : s.drop pos
            = natToChars a ++ (',' :: (fieldChars (g2 :: gs2) ++ ' ' :: ' ' :: τ)) := by
          rw [hdrop, fieldChars_cons_cons]
          show (groupChars (CPUGroup.single a) ++ ',' :: fieldChars (g2 :: gs2))
              ++ ' ' :: ' ' :: τ = _
          rw [List.append_assoc]
          rfl
        have hstr : virStrToLong_i (s.drop pos)
            = some ((a : Int), (natToChars a).length) := by
          rw [hdrop1]
          exact virStrToLong_i_natToChars a _ haI rfl
        simp only [hstr]
        have hch : charAt s (pos + (natToChars a).length) = ',' := by
          rw [← charAt_drop (s := s) (n := pos), hdrop1, charAt_append_self]
          rfl
        rw [hch]
        rw [if_neg (by decide : ¬(',' = '-'))]
        have hdrop2 : s.drop (pos + (natToChars a).length + 1)
            = fieldChars (g2 :: gs2) ++ ' ' :: ' ' :: τ := by
          have h9 : pos + (natToChars a).length + 1
              = pos + ((natToChars a).length + 1) := by omega
          rw [h9, drop_add, hdrop1, drop_append_len]
          rfl
        rw [ih s τ (pos + (natToChars a).length + 1) (i + 1) (acc ++ [(a : Int)])
          count f (by simp)
          (fun g2 hg2 => hv g2 (List.mem_cons_of_mem _ hg2))
          hdrop2
          (by
            rw [hgs1] at hcnt'
            push_cast
            omega)
          (by
            have hl : (g2 :: gs2).length = gs2.length + 1 := rfl
            simp only [List.length_cons] at hfuel ⊢
            omega)]
        rw [fieldExpand_cons]
        show some ((acc ++ [(a : Int)]) ++ fieldExpand (g2 :: gs2))
            = some (acc ++ ([(a : Int)] ++ fieldExpand (g2 :: gs2)))
        rw [List.append_assoc]
    | range a b =>
      obtain ⟨hab, hbI⟩ := hvg
      have haI : a ≤ 2147483647 := le_trans hab hbI
      have habI : (a : Int) ≤ (b : Int) := by exact_mod_cast hab
      have hgs1 : groupSize (CPUGroup.range a b) = 1 + ((b : Int) - (a : Int)) := rfl
      have htn : (((b : Int) - (a : Int)).toNat : Int) = (b : Int) - (a : Int) :=
        Int.toNat_of_nonneg (by omega)
      cases gs with
      | nil =>
        have hdrop1 : s.drop pos
            = natToChars a ++ ('-' :: (natToChars b ++ ' ' :: ' ' :: τ)) := by
          rw [hdrop]
          show (natToChars a ++ '-' :: natToChars b) ++ ' ' :: ' ' :: τ = _
          rw [List.append_assoc]
          rfl
        have hstr : virStrToLong_i (s.drop pos)
            = some ((a : Int), (natToChars a).length) := by
          rw [hdrop1]
          exact virStrToLong_i_natToChars a _ haI rfl
        simp only [hstr]
        have hch : charAt s (pos + (natToChars a).length) = '-' := by
          rw [← charAt_drop (s := s) (n := pos), hdrop1, charAt_append_self]
          rfl
        rw [hch, if_pos rfl]
        have hdrop2 : s.drop (pos + (natToChars a).length + 1)
            = natToChars b ++ ' ' :: ' ' :: τ := by
          have h9 : pos + (natToChars a).length + 1
              = pos + ((natToChars a).length + 1) := by omega
          rw [h9, drop_add, hdrop1, drop_append_len]
          rfl
        have hstr2 : virStrToLong_i (s.drop (pos + (natToChars a).length + 1))
            = some ((b : Int), (natToChars b).length) := by
          rw [hdrop2]
          exact virStrToLong_i_natToChars b _ hbI rfl
        simp only [hstr2]
        rw [parseCPUsFill_exit s count f _ _ _ (by omega)
          (by
            rw [hgs1] at hcnt'
            have h0 : fieldSize ([] : List CPUGroup) = 0 := rfl
            rw [h0] at hcnt'
            push_cast [htn]
            omega)]
        rw [fieldExpand_cons]
        show some (acc ++ (a : Int) :: intRangeAsc (a : Int) (b : Int))
            = some (acc ++ (((a : Int) :: intRangeAsc (a : Int) (b : Int))
              ++ fieldExpand []))
        rw [show fieldExpand [] = [] from rfl, List.append_nil]
      | cons g2 gs2 =>
        have hdrop1 : s.drop pos
            = natToChars a ++ ('-' :: (natToChars b
              ++ (',' :: (fieldChars (g2 :: gs2) ++ ' ' :: ' ' :: τ)))) := by
          rw [hdrop, fieldChars_cons_cons]
          show (groupChars (CPUGroup.range a b) ++ ',' :: fieldChars (g2 :: gs2))
              ++ ' ' :: ' ' :: τ = _
          show ((natToChars a ++ '-' :: natToChars b) ++ ',' :: fieldChars (g2 :: gs2))
              ++ ' ' :: ' ' :: τ = _
          simp only [List.append_assoc, List.cons_append]
        have hstr : virStrToLong_i (s.drop pos)
            = some ((a : Int), (natToChars a).length) := by
          rw [hdrop1]
          exact virStrToLong_i_natToChars a _ haI rfl
        simp only [hstr]
        have hch : charAt s (pos + (natToChars a).length) = '-' := by
          rw [← charAt_drop (s := s) (n := pos), hdrop1, charAt_append_self]
          rfl
        rw [hch, if_pos rfl]
        have hdrop2 : s.drop (pos + (natToChars a).length + 1)
            = natToChars b ++ (',' :: (fieldChars (g2 :: gs2) ++ ' ' :: ' ' :: τ)) := by
          have h9 : pos + (natToChars a).length + 1
              = pos + ((natToChars a).length + 1) := by omega
          rw [h9, drop_add, hdrop1, drop_append_len]
          rfl
        have hstr2 : virStrToLong_i (s.drop (pos + (natToChars a).length + 1))
            = some ((b : Int), (natToChars b).length) := by
          rw [hdrop2]
          exact virStrToLong_i_natToChars b _ hbI rfl
        simp only [hstr2]
        have hdrop3 : s.drop (pos + (natToChars a).length + 1
            + (natToChars b).length + 1)
            = fieldChars (g2 :: gs2) ++ ' ' :: ' ' :: τ := by
          have h9 : pos + (natToChars a).length + 1 + (natToChars b).length + 1
              = (pos + (natToChars a).length + 1) + ((natToChars b).length + 1) := by
            omega
          rw [h9, drop_add, hdrop2, drop_append_len]
          rfl
        rw [ih s τ _ (i + 1 + ((b : Int) - (a : Int)).toNat)
          (acc ++ (a : Int) :: intRangeAsc (a : Int) (b : Int))
          count f (by simp)
          (fun g2 hg2 => hv g2 (List.mem_cons_of_mem _ hg2))
          hdrop3
          (by
            rw [hgs1] at hcnt'
            push_cast [htn]
            omega)
          (by
            have hl : (g2 :: gs2).length = gs2.length + 1 := rfl
            simp only [List.length_cons] at hfuel ⊢
            omega)]
        rw [fieldExpand_cons]
        show some ((acc ++ (a : Int) :: intRangeAsc (a : Int) (b : Int))
              ++ fieldExpand (g2 :: gs2))
            = some (acc ++ (((a : Int) :: intRangeAsc (a : Int) (b : Int))
              ++ fieldExpand (g2 :: gs2)))
        rw [List.append_assoc]

/-! ## Claim theorems about the CPU-set parser -/

/-- C5: for every valid CPU-set field of comma-separated single integers
and inclusive ranges `a-b` with `a ≤ b` (rendered within the 24-column
field, space padding after it), `virJailhouseParseCPUs` returns the
explicit list obtained by expanding each group left to right, every range
ascending and inclusive on both ends, and the returned count is the
length of that list. -/
theorem parseCPUs_valid_field_expands (gs : List CPUGroup) (rest : List Char)
    (hne : gs ≠ [])
    (hv : ∀ g ∈ gs, GroupValid g)
    (hlen : (fieldChars gs).length ≤ 24) :
    virJailhouseParseCPUs (fieldChars gs ++ ' ' :: ' ' :: rest) true
      = (((fieldExpand gs).length : Int), some (fieldExpand gs)) := by
  obtain ⟨g, gs0, rfl⟩ : ∃ g gs0, gs = g :: gs0 := by
    cases gs with
    | nil => exact absurd rfl hne
    | cons g gs0 => exact ⟨g, gs0, rfl⟩
  set s := fieldChars (g :: gs0) ++ ' ' :: ' ' :: rest with hs
  have hdrop0 : s.drop 0 = fieldChars (g :: gs0) ++ ' ' :: ' ' :: rest := rfl
  have hhead : charAt s 0 ≠ ' ' :=
    dec_not_space _ (fieldChars_head_dec g gs0 _)
  have hglen := length_le_fieldChars_length (g :: gs0)
  have hcount : parseCPUsCount s 30 0 0 = some (0 + fieldSize (g :: gs0)) :=
    parseCPUsCount_groups (g :: gs0) s rest 0 0 30 (by simp) hv hdrop0
      (by omega) (by omega)
  have hsz1 : (1 : Int) ≤ fieldSize (g :: gs0) := by
    have h1 := length_le_fieldSize (g :: gs0) hv
    have h2 : (1 : Int) ≤ ((g :: gs0).length : Int) := by
      simp only [List.length_cons]
      push_cast
      omega
    omega
  have hfillfuel : (g :: gs0).length + 1 ≤ (fieldSize (g :: gs0)).toNat + 1 := by
    have h1 := length_le_fieldSize (g :: gs0) hv
    omega
  have hfill : parseCPUsFill s (fieldSize (g :: gs0))
      ((fieldSize (g :: gs0)).toNat + 1) 0 0 []
      = some ([] ++ fieldExpand (g :: gs0)) :=
    parseCPUsFill_groups (g :: gs0) s rest 0 0 [] (fieldSize (g :: gs0))
      ((fieldSize (g :: gs0)).toNat + 1) (by simp) hv hdrop0 (by push_cast; omega)
      hfillfuel
  unfold virJailhouseParseCPUs
  rw [if_neg hhead]
  rw [Int.zero_add] at hcount
  simp only [hcount]
  rw [if_neg (by omega)]
  rw [if_neg (by simp)]
  simp only [hfill, List.nil_append]
  rw [fieldSize_eq_expand_length (g :: gs0) hv]

/-- Witness for C5 at the spec's own example: the field `"0-3,7"`
(padded to the 24-column width) yields `[0, 1, 2, 3, 7]` with count 5. -/
theorem parseCPUs_valid_field_expands_witness :
    virJailhouseParseCPUs ("0-3,7                   ".data) true
      = (5, some [0, 1, 2, 3, 7]) := by
  have h := parseCPUs_valid_field_expands
    [CPUGroup.range 0 3, CPUGroup.single 7] (List.replicate 17 ' ')
    (by simp) (by decide) (by decide)
  have heq : fieldChars [CPUGroup.range 0 3, CPUGroup.single 7]
      ++ ' ' :: ' ' :: List.replicate 17 ' '
      = "0-3,7                   ".data := by decide
  have hexp : fieldExpand [CPUGroup.range 0 3, CPUGroup.single 7]
      = [0, 1, 2, 3, 7] := by decide
  rw [heq, hexp] at h
  exact h

/-- C8: a CPU-set field that begins with a space (blank field) parses to
the empty set — count 0 and a NULL array — and is not an error. -/
theorem parseCPUs_blank_field (s : List Char) (allocOk : Bool)
    (h : charAt s 0 = ' ') :
    virJailhouseParseCPUs s allocOk = (0, none) := by
  unfold virJailhouseParseCPUs
  rw [if_pos h]

/-- Witness for C8: the all-spaces 24-column field. -/
theorem parseCPUs_blank_field_witness :
    virJailhouseParseCPUs ("                        ".data) true = (0, none) :=
  parseCPUs_blank_field ("                        ".data) true (by decide)

/-- C10: the CPU-set parser cannot report failure distinguishably.  When
a numeric token fails to parse (in either pass) or the result allocation
fails, the function returns count 0 with a NULL array — exactly the
result of a blank field. -/
theorem parseCPUs_error_indistinguishable (s : List Char) (allocOk : Bool)
    (h : parseCPUsCount s 30 0 0 = none ∨ allocOk = false ∨
      ∀ c, parseCPUsCount s 30 0 0 = some c →
        parseCPUsFill s c (c.toNat + 1) 0 0 [] = none) :
    virJailhouseParseCPUs s allocOk = (0, none) ∧
      virJailhouseParseCPUs s allocOk
        = virJailhouseParseCPUs [' '] true := by
  have hblank : virJailhouseParseCPUs [' '] true = (0, none) := by decide
  suffices h0 : virJailhouseParseCPUs s allocOk = (0, none) by
    exact ⟨h0, h0.trans hblank.symm⟩
  unfold virJailhouseParseCPUs
  by_cases hsp : charAt s 0 = ' '
  · rw [if_pos hsp]
  · rw [if_neg hsp]
    rcases hc : parseCPUsCount s 30 0 0 with _ | c
    · rfl
    · show (if c ≤ 0 then ((0 : Int), (none : Option (List Int)))
          else if allocOk = false then (0, none)
          else match parseCPUsFill s c (c.toNat + 1) 0 0 [] with
            | none => (0, none)
            | some cpus => (c, some cpus)) = (0, none)
      rcases h with h1 | h2 | h3
      · rw [hc] at h1
        exact absurd h1 (by simp)
      · subst h2
        by_cases hcle : c ≤ 0
        · rw [if_pos hcle]
        · rw [if_neg hcle, if_pos rfl]
      · have hf := h3 c hc
        by_cases hcle : c ≤ 0
        · rw [if_pos hcle]
        · rw [if_neg hcle]
          by_cases ha : allocOk = false
          · rw [if_pos ha]
          · rw [if_neg ha, hf]

/-- Witness for C10: the malformed field `"x"` (token parse failure in
pass one) yields exactly the blank-field result. -/
theorem parseCPUs_error_indistinguishable_witness :
    virJailhouseParseCPUs ("x                       ".data) true = (0, none) ∧
      virJailhouseParseCPUs ("x                       ".data) true
        = virJailhouseParseCPUs [' '] true :=
  parseCPUs_error_indistinguishable ("x                       ".data) true
    (Or.inl (by decide))

/-! ## Cell records and `virJailhouseParseListOutput`

A cell record mirrors `struct virJailhouseCell`.  The `uuid` is the
16-byte buffer as an opaque value (`0` is the zero-filled buffer
`VIR_ALLOC_N` produces).  The CPU arrays are `Option (List Int)` with
`none` for a NULL pointer.  Records come out of `VIR_ALLOC_N`, i.e.
`calloc`: every field starts zero-filled, which matters when a field's
parse fails and the C code leaves the field untouched. -/

structure VirJailhouseCell where
  id : Int
  name : List Char
  state : Int
  assignedCPUs : Option (List Int)
  assignedCPUsLength : Int
  failedCPUs : Option (List Int)
  failedCPUsLength : Int
  uuid : Nat
deriving DecidableEq

def STATERUNNING : Int := 0
def STATERUNNINGLOCKED : Int := 1
def STATESHUTDOWN : Int := 2
def STATEFAILED : Int := 3

def STATERUNNINGSTRING : List Char := "running         ".data
def STATERUNNINGLOCKEDSTRING : List Char := "running/locked  ".data
def STATESHUTDOWNSTRING : List Char := "shut down       ".data
def STATEFAILEDSTRING : List Char := "failed          ".data

/-- `strncmp(a, b, n) == 0`, with the usual stop at a NUL terminator
(reads past the end of a list see the terminator). -/
def strncmpEq : Nat → List Char → List Char → Bool
  | 0, _, _ => true
  | n + 1, a, b =>
    let ca := a.headD nulChar
    let cb := b.headD nulChar
    if ca ≠ cb then false
    else if ca = nulChar then true
    else strncmpEq n a.tail b.tail

/-- The `for (k = 0; k <= IDLENGTH; k++) if (output[i+k] == ' ') break;`
search: index of the first space among offsets `k .. k+n-1`. -/
def findSpaceIdx (s : List Char) : Nat → Nat → Option Nat
  | _, 0 => none
  | k, n + 1 => if charAt s k = ' ' then some k else findSpaceIdx s (k + 1) n

/-- The buffer after the id-field mutations of one row: the first space
among offsets 0..8 is replaced by NUL (and stays NUL), and offset 8 is
NUL-ed for the id parse and then restored with its (possibly already
NUL-ed) value. -/
def rowBuf (s : List Char) : List Char :=
  let s1 := match findSpaceIdx s 0 9 with
    | some k => setAt s k nulChar
    | none => s
  setAt (setAt s1 8 nulChar) 8 (charAt s1 8)

/-- The id of one row: `virStrToLong_i(output+i, NULL, 0, &id)` on the
NUL-terminated id field.  On failure the C code only reports an error;
the record keeps its zero-initialized id. -/
def rowId (s : List Char) : Int :=
  let s1 := match findSpaceIdx s 0 9 with
    | some k => setAt s k nulChar
    | none => s
  match virStrToLong_i_full (setAt s1 8 nulChar) with
  | some v => v
  | none => 0

/-- The name of one row: `virStrncpy` copies at most 24 bytes (stopping
at a NUL), then the name is truncated at its first space. -/
def rowName (s3 : List Char) : List Char :=
  (((s3.drop 8).take 24).takeWhile
    (fun ch => ch ≠ nulChar)).takeWhile (fun ch => ch ≠ ' ')

/-- The state of one row, from the buffer at the row's offset 32 (the
state column): `STREQLEN` against the four 16-character patterns, in the
order of the C chain.  The chain has no `else`: an unmatched token keeps
the zero-initialized state, which is `STATERUNNING`. -/
def rowState (stateAt : List Char) : Int :=
  if strncmpEq 16 stateAt STATERUNNINGSTRING then STATERUNNING
  else if strncmpEq 16 stateAt STATESHUTDOWNSTRING then STATESHUTDOWN
  else if strncmpEq 16 stateAt STATEFAILEDSTRING then STATEFAILED
  else if strncmpEq 16 stateAt STATERUNNINGLOCKEDSTRING then
    STATERUNNINGLOCKED
  else STATERUNNING

/-- One row of `jailhouse cell list` output, parsed from the buffer
suffix `s` that starts at the row.  Mirrors lines 174-205 of the C file.
Returns the record and the (mutated) buffer suffix. -/
def parseRow (s : List Char) : VirJailhouseCell × List Char :=
  let s3 := rowBuf s
  let ac := virJailhouseParseCPUs (s3.drop 48) true
  let fc := virJailhouseParseCPUs (s3.drop 72) true
  ({ id := rowId s, name := rowName s3, state := rowState (s3.drop 32),
     assignedCPUs := ac.2, assignedCPUsLength := ac.1,
     failedCPUs := fc.2, failedCPUsLength := fc.1, uuid := 0 }, s3)

/-- The row loop: each iteration advances the cursor by
`IDLENGTH + NAMELENGTH + STATELENGTH + 2*CPULENGTH + 1 = 97`. -/
def parseRows : Nat → List Char → List VirJailhouseCell
  | 0, _ => []
  | n + 1, s =>
    let rc := parseRow s
    rc.1 :: parseRows n (rc.2.drop 97)

/-- The success path of `virJailhouseParseListOutput` on a captured
output buffer.  The row count is the number of newlines before the
terminator minus one (the header); on that path the parse never fails:
each row is parsed with `parseRow`, malformed fields only keep their
zero-initialized values.  The `(-1, [])` branch marks the inputs with
no newline, on which the C function does NOT return: its `size_t`
count stays at the initial `(size_t)-1`, the allocation of that many
records fails, and the error label's cleanup loop dereferences the
NULL record array (lines 211-214) — a crash.  The full function,
error label included, is `virJailhouseParseListOutputC` below;
`parseListOutputC_refines` proves it agrees with this definition on
every output with a newline. -/
def virJailhouseParseListOutput (output : List Char) :
    Int × List VirJailhouseCell :=
  let visible := output.takeWhile (fun ch => ch ≠ nulChar)
  let nl : Int := ((visible.filter (fun ch => ch == '\n')).length : Int)
  let count : Int := nl - 1
  if count < 0 then (-1, [])
  else
    (count,
     parseRows count.toNat
       (output.drop (output.findIdx (fun ch => ch == '\n') + 1)))

/-! ## The driver cache and `virJailhouseSetUUID`

`struct virJailhouseDriver` holds the previous snapshot.  UUID
generation (`virUUIDGenerate`) is modelled by an oracle `fresh` giving
the random uuid used for the `j`-th new cell. -/

structure VirJailhouseDriver where
  lastQueryCellsCount : Int
  lastQueryCells : List VirJailhouseCell
deriving DecidableEq

/-- `virJailhouseSetUUID`: scan the previous cells for the first one
whose name matches (`strncmp` over `NAMELENGTH+1 = 25` bytes) and copy
its uuid; otherwise generate a new one. -/
def virJailhouseSetUUID (cells : List VirJailhouseCell)
    (cell : VirJailhouseCell) (freshUuid : Nat) : VirJailhouseCell :=
  match cells.find? (fun cprev => strncmpEq 25 cprev.name cell.name) with
  | some cprev => { cell with uuid := cprev.uuid }
  | none => { cell with uuid := freshUuid }

def mapWithIndex {α β : Type} (f : Nat → α → β) : Nat → List α → List β
  | _, [] => []
  | j, c :: cs => f j c :: mapWithIndex f (j + 1) cs

/-- The success path of `virJailhouseGetCurrentCellList`: run the list
command (its captured output is `cmdOutput`), parse it, reconcile
uuids against the previous snapshot, free the old cells and store the
new list and count.  Only a successful parse reaches the store: a
failed command or a no-newline output crashes inside the parse's error
label before returning (see `virJailhouseGetCurrentCellListC` and
`refresh_failure_crashes`), so the `cmdOutput = none` arm — a clean
`(-1, NULL)` store — models a return the C never performs and no claim
theorem relies on it.  `getCurrentCellListC_refines` proves this
definition agrees with the full model on every refresh that returns. -/
def virJailhouseGetCurrentCellList (driver : VirJailhouseDriver)
    (cmdOutput : Option (List Char)) (fresh : Nat → Nat) :
    VirJailhouseDriver :=
  let res := match cmdOutput with
    | none => ((-1 : Int), ([] : List VirJailhouseCell))
    | some out => virJailhouseParseListOutput out
  { lastQueryCellsCount := res.1,
    lastQueryCells := mapWithIndex
      (fun j c => virJailhouseSetUUID driver.lastQueryCells c (fresh j))
      0 res.2 }

/-- `jailhouseConnectNumOfDomains`: refresh, then report the stored
count (an `int` in libvirt's API, so `-1` after a failed refresh). -/
def jailhouseConnectNumOfDomains (driver : VirJailhouseDriver)
    (cmdOutput : Option (List Char)) (fresh : Nat → Nat) :
    Int × VirJailhouseDriver :=
  let d := virJailhouseGetCurrentCellList driver cmdOutput fresh
  (d.lastQueryCellsCount, d)

/-- `jailhouseDomainLookupByID`: refresh, bail out on the `-1` sentinel,
otherwise scan the stored cells for the id. -/
def jailhouseDomainLookupByID (driver : VirJailhouseDriver)
    (cmdOutput : Option (List Char)) (fresh : Nat → Nat) (domid : Int) :
    Option VirJailhouseCell × VirJailhouseDriver :=
  let d := virJailhouseGetCurrentCellList driver cmdOutput fresh
  if d.lastQueryCellsCount = -1 then (none, d)
  else (d.lastQueryCells.find? (fun c => c.id == domid), d)

/-! ## Row-buffer lemmas -/

theorem findSpaceIdx_bound :
    ∀ (n k0 : Nat) (s : List Char) (k : Nat),
      findSpaceIdx s k0 n = some k → k0 ≤ k ∧ k < k0 + n := by
  intro n
  induction n with
  | zero => intro k0 s k h; exact absurd h (by simp [findSpaceIdx])
  | succ n ih =>
    intro k0 s k h
    unfold findSpaceIdx at h
    by_cases hc : charAt s k0 = ' '
    · rw [if_pos hc] at h
      injection h with h
      omega
    · rw [if_neg hc] at h
      have := ih (k0 + 1) s k h
      omega

theorem drop_setAt_lt (s : List Char) (p : Nat) (c : Char) (n : Nat)
    (h : p < n) : (setAt s p c).drop n = s.drop n := by
  unfold setAt
  rw [List.drop_set, if_pos h]

/-- The id-field mutations touch only offsets 0..8: any suffix from
offset 9 on is unchanged. -/
theorem rowBuf_drop (s : List Char) (n : Nat) (h : 9 ≤ n) :
    (rowBuf s).drop n = s.drop n := by
  unfold rowBuf
  rcases hf : findSpaceIdx s 0 9 with _ | k
  · simp only
    rw [drop_setAt_lt _ _ _ _ (by omega), drop_setAt_lt _ _ _ _ (by omega)]
  · simp only
    have hk := findSpaceIdx_bound 9 0 s k hf
    rw [drop_setAt_lt _ _ _ _ (by omega), drop_setAt_lt _ _ _ _ (by omega),
      drop_setAt_lt _ _ _ _ (by omega)]

theorem parseRow_fst_state (s : List Char) :
    (parseRow s).1.state = rowState ((rowBuf s).drop 32) := rfl

theorem parseRow_fst_id (s : List Char) : (parseRow s).1.id = rowId s := by
  simp only [parseRow]

theorem parseRow_fst_name (s : List Char) :
    (parseRow s).1.name = rowName (rowBuf s) := by
  simp only [parseRow]

theorem parseRow_fst_uuid (s : List Char) : (parseRow s).1.uuid = 0 := by
  simp only [parseRow]

theorem parseRow_snd (s : List Char) : (parseRow s).2 = rowBuf s := rfl

/-! ## Claim C4: unrecognized state tokens -/

/-- C4 (amended): a row whose state field matches none of the four
16-character state strings yields a record whose state is the
zero-initialized `STATERUNNING` (0) — the C `if`/`else if` chain has no
final `else`, so nothing overwrites the `calloc`-ed 0.  The spec's
claimed fail-safe default to `Failed` does not exist in the code. -/
theorem parseRow_unmatched_state (s : List Char)
    (h1 : strncmpEq 16 (s.drop 32) STATERUNNINGSTRING = false)
    (h2 : strncmpEq 16 (s.drop 32) STATESHUTDOWNSTRING = false)
    (h3 : strncmpEq 16 (s.drop 32) STATEFAILEDSTRING = false)
    (h4 : strncmpEq 16 (s.drop 32) STATERUNNINGLOCKEDSTRING = false) :
    (parseRow s).1.state = STATERUNNING := by
  rw [parseRow_fst_state, rowBuf_drop s 32 (by omega)]
  unfold rowState
  rw [h1, h2, h3, h4]
  simp

/-- Witness for the amended C4 at a concrete malformed row. -/
theorem parseRow_unmatched_state_witness :
    (parseRow (("1       " ++ "vm-c                    "
      ++ "bogus status    " ++ "0                       "
      ++ "                        ").data)).1.state = STATERUNNING :=
  parseRow_unmatched_state _ (by decide) (by decide) (by decide) (by decide)

/-- A listing whose single row carries an unrecognized state token. -/
def demoHeader : List Char :=
  "ID      Name                    State           Assigned CPUs           Failed CPUs".data

def demoBadStateRow : List Char :=
  ("1       " ++ "vm-c                    " ++ "bogus status    "
    ++ "0                       " ++ "                        ").data

def demoBadStateListing : List Char :=
  demoHeader ++ '\n' :: (demoBadStateRow ++ ['\n'])

/-- Counterexample to C4 as stated: this row's state field matches none
of the four exact state strings, yet the parsed record's state is
`STATERUNNING` (0), not `STATEFAILED` (3). -/
theorem c4_counterexample :
    (strncmpEq 16 (demoBadStateRow.drop 32) STATERUNNINGSTRING = false ∧
     strncmpEq 16 (demoBadStateRow.drop 32) STATESHUTDOWNSTRING = false ∧
     strncmpEq 16 (demoBadStateRow.drop 32) STATEFAILEDSTRING = false ∧
     strncmpEq 16 (demoBadStateRow.drop 32) STATERUNNINGLOCKEDSTRING = false) ∧
    (virJailhouseParseListOutput demoBadStateListing).2.map
      (fun c => c.state) = [STATERUNNING] ∧
    STATERUNNING ≠ STATEFAILED := by
  refine ⟨⟨by decide, by decide, by decide, by decide⟩, by decide, by decide⟩

/-! ## Claim C3: malformed rows never abort the parse -/

theorem parseRows_length (n : Nat) : ∀ s, (parseRows n s).length = n := by
  induction n with
  | zero => intro s; rfl
  | succ n ih =>
    intro s
    show ((parseRow s).1 :: parseRows n ((parseRow s).2.drop 97)).length = n + 1
    rw [List.length_cons, ih]

/-- C3 (amended): the list parser cannot fail on row contents.  Whenever
the captured output contains at least one newline, the parse returns
`newlines - 1` as the count together with exactly that many records —
malformed fields only leave zero-initialized values in their record
(the id-parse failure is merely reported, an unmatched state keeps
`STATERUNNING`, and a malformed CPU field yields the empty CPU set).
The only failing refreshes are a failed tool invocation and the
no-newline output whose `(size_t)-1` allocation fails. -/
theorem parseListOutput_total (output : List Char)
    (h : 1 ≤ ((output.takeWhile (fun ch => ch ≠ nulChar)).filter
      (fun ch => ch == '\n')).length) :
    (virJailhouseParseListOutput output).1
        = (((output.takeWhile (fun ch => ch ≠ nulChar)).filter
          (fun ch => ch == '\n')).length : Int) - 1 ∧
      (virJailhouseParseListOutput output).2.length
        = ((output.takeWhile (fun ch => ch ≠ nulChar)).filter
          (fun ch => ch == '\n')).length - 1 := by
  unfold virJailhouseParseListOutput
  rw [if_neg (by omega)]
  refine ⟨rfl, ?_⟩
  rw [parseRows_length]
  omega

/-- Witness for the amended C3: a listing whose only row is thoroughly
malformed (non-numeric id, unknown state, bad CPU field) still parses
to one record. -/
theorem parseListOutput_total_witness :
    (virJailhouseParseListOutput (("H" ++ "\n" ++ "xx      "
        ++ "vm-c                    " ++ "bogus status    "
        ++ "zz                      " ++ "                        "
        ++ "\n").data)).1 = 1 ∧
      (virJailhouseParseListOutput (("H" ++ "\n" ++ "xx      "
        ++ "vm-c                    " ++ "bogus status    "
        ++ "zz                      " ++ "                        "
        ++ "\n").data)).2.length = 1 := by
  have h := parseListOutput_total (("H" ++ "\n" ++ "xx      "
    ++ "vm-c                    " ++ "bogus status    "
    ++ "zz                      " ++ "                        "
    ++ "\n").data) (by decide)
  obtain ⟨h1, h2⟩ := h
  constructor
  · rw [h1]; decide
  · rw [h2]; decide

/-- A listing containing one malformed row: the id field is not numeric,
the state token is unknown, the assigned-CPU field is unparseable. -/
def demoMalformedRow : List Char :=
  ("xx      " ++ "vm-c                    " ++ "bogus status    "
    ++ "zz                      " ++ "                        ").data

def demoMalformedListing : List Char :=
  demoHeader ++ '\n' :: (demoMalformedRow ++ ['\n'])

/-- Counterexample to C3 as stated: an output with a malformed row does
not fail — the parse produces a full record (count 1, not the error
sentinel `-1`), with zero-initialized id, state `STATERUNNING` and empty
CPU sets. -/
theorem c3_counterexample :
    (virJailhouseParseListOutput demoMalformedListing).1 = 1 ∧
      (virJailhouseParseListOutput demoMalformedListing).1 ≠ -1 ∧
      (virJailhouseParseListOutput demoMalformedListing).2
        = [{ id := 0, name := "vm-c".data, state := STATERUNNING,
             assignedCPUs := none, assignedCPUsLength := 0,
             failedCPUs := none, failedCPUsLength := 0, uuid := 0 }] := by
  refine ⟨by decide, by decide, by decide⟩

/-! ## Claim C6: well-formed listings

A well-formed row of the tool's table: a numeric id padded to the
8-column id field, a name padded to the 24-column name field, one of the
four exact state tokens, and two 24-column CPU fields.  The parser's
behaviour on such listings is pinned row by row. -/

inductive CellState where
  | running
  | runningLocked
  | shutDown
  | failed
deriving DecidableEq

def stateToken : CellState → List Char
  | .running => STATERUNNINGSTRING
  | .runningLocked => STATERUNNINGLOCKEDSTRING
  | .shutDown => STATESHUTDOWNSTRING
  | .failed => STATEFAILEDSTRING

def stateCode : CellState → Int
  | .running => STATERUNNING
  | .runningLocked => STATERUNNINGLOCKED
  | .shutDown => STATESHUTDOWN
  | .failed => STATEFAILED

structure RawRow where
  idVal : Nat
  name : List Char
  state : CellState
  assignedField : List Char
  failedField : List Char

/-- Pad a field's content with spaces to the column width. -/
def padTo (w : Nat) (l : List Char) : List Char :=
  l ++ List.replicate (w - l.length) ' '

/-- The 97 characters of one row: id(8), name(24), state(16), assigned
CPUs(24), failed CPUs(24), newline. -/
def rowChars (r : RawRow) : List Char :=
  padTo 8 (natToChars r.idVal) ++ (padTo 24 r.name ++ (stateToken r.state
    ++ (r.assignedField ++ (r.failedField ++ ['\n']))))

/-- Well-formedness of a row as the tool prints it. -/
def RowWF (r : RawRow) : Prop :=
  (natToChars r.idVal).length ≤ 8 ∧ r.idVal ≤ 99999999 ∧
  r.name ≠ [] ∧ r.name.length ≤ 24 ∧
  (∀ c ∈ r.name, c ≠ ' ' ∧ c ≠ nulChar ∧ c ≠ '\n') ∧
  r.assignedField.length = 24 ∧
  (∀ c ∈ r.assignedField, c ≠ '\n' ∧ c ≠ nulChar) ∧
  r.failedField.length = 24 ∧
  (∀ c ∈ r.failedField, c ≠ '\n' ∧ c ≠ nulChar)

/-- The header line carries no newline and no NUL. -/
def HeaderWF (hdr : List Char) : Prop :=
  ∀ c ∈ hdr, c ≠ '\n' ∧ c ≠ nulChar

def rowsChars : List RawRow → List Char
  | [] => []
  | r :: rs => rowChars r ++ rowsChars rs

def listingChars (hdr : List Char) (rows : List RawRow) : List Char :=
  hdr ++ '\n' :: rowsChars rows

/-! ### Small list lemmas -/

theorem takeWhile_all {p : Char → Bool} :
    ∀ l : List Char, (∀ c ∈ l, p c = true) → l.takeWhile p = l := by
  intro l
  induction l with
  | nil => intro h; rfl
  | cons c cs ih =>
    intro h
    rw [List.takeWhile_cons, h c (List.mem_cons_self c cs),
      ih (fun x hx => h x (List.mem_cons_of_mem c hx))]
    rfl

theorem takeWhile_append_all {p : Char → Bool} :
    ∀ l1 l2 : List Char, (∀ c ∈ l1, p c = true) →
      (l1 ++ l2).takeWhile p = l1 ++ l2.takeWhile p := by
  intro l1
  induction l1 with
  | nil => intro l2 h; rfl
  | cons c cs ih =>
    intro l2 h
    rw [List.cons_append, List.takeWhile_cons, h c (List.mem_cons_self c cs)]
    rw [ih l2 (fun x hx => h x (List.mem_cons_of_mem c hx))]
    rfl

theorem takeWhile_replicate_space (k : Nat) :
    (List.replicate k ' ').takeWhile (fun ch => ch ≠ ' ') = [] := by
  cases k with
  | zero => rfl
  | succ k =>
    rw [List.replicate_succ, List.takeWhile_cons]
    simp

theorem charAt_mem (l : List Char) (i : Nat) (h : i < l.length) :
    charAt l i ∈ l := by
  unfold charAt
  rw [List.getD_eq_getElem l nulChar h]
  exact List.getElem_mem h

theorem set_head_self (l : List Char) : l.set 0 (charAt l 0) = l := by
  cases l with
  | nil => rfl
  | cons c cs => rfl

theorem padTo_length (w : Nat) (l : List Char) (h : l.length ≤ w) :
    (padTo w l).length = w := by
  unfold padTo
  rw [List.length_append, List.length_replicate]
  omega

theorem stateToken_length (st : CellState) : (stateToken st).length = 16 := by
  cases st <;> decide

theorem stateToken_chars (st : CellState) :
    ∀ c ∈ stateToken st, c ≠ '\n' ∧ c ≠ nulChar := by
  cases st <;> decide

theorem rowChars_length (r : RawRow) (h : RowWF r) :
    (rowChars r).length = 97 := by
  obtain ⟨h1, -, -, h4, -, h6, -, h8, -⟩ := h
  unfold rowChars
  simp only [List.length_append, List.length_cons, List.length_nil]
  rw [padTo_length 8 _ h1, padTo_length 24 _ h4, stateToken_length, h6, h8]

/-! ### Newline counting -/

theorem filter_nl_nil {l : List Char} (h : ∀ c ∈ l, c ≠ '\n') :
    l.filter (fun ch => ch == '\n') = [] := by
  rw [List.filter_eq_nil_iff]
  intro c hc
  simp only [beq_iff_eq]
  exact h c hc

theorem count_nl_rowChars (r : RawRow) (h : RowWF r) :
    ((rowChars r).filter (fun ch => ch == '\n')).length = 1 := by
  obtain ⟨-, -, -, -, h5, -, h7, -, h9⟩ := h
  unfold rowChars
  simp only [List.filter_append]
  have hid : (padTo 8 (natToChars r.idVal)).filter (fun ch => ch == '\n') = [] := by
    apply filter_nl_nil
    intro c hc
    unfold padTo at hc
    rcases List.mem_append.mp hc with hc | hc
    · have hd := natToChars_all_dec r.idVal c hc
      intro he
      subst he
      exact absurd hd (by decide)
    · rw [List.eq_of_mem_replicate hc]
      decide
  have hname : (padTo 24 r.name).filter (fun ch => ch == '\n') = [] := by
    apply filter_nl_nil
    intro c hc
    unfold padTo at hc
    rcases List.mem_append.mp hc with hc | hc
    · exact (h5 c hc).2.2
    · rw [List.eq_of_mem_replicate hc]
      decide
  have hst : (stateToken r.state).filter (fun ch => ch == '\n') = [] := by
    apply filter_nl_nil
    intro c hc
    exact (stateToken_chars r.state c hc).1
  have haf : (r.assignedField).filter (fun ch => ch == '\n') = [] := by
    apply filter_nl_nil
    intro c hc
    exact (h7 c hc).1
  have hff : (r.failedField).filter (fun ch => ch == '\n') = [] := by
    apply filter_nl_nil
    intro c hc
    exact (h9 c hc).1
  rw [hid, hname, hst, haf, hff]
  rfl

theorem count_nl_rowsChars (rows : List RawRow) (h : ∀ r ∈ rows, RowWF r) :
    ((rowsChars rows).filter (fun ch => ch == '\n')).length = rows.length := by
  induction rows with
  | nil => rfl
  | cons r rs ih =>
    show ((rowChars r ++ rowsChars rs).filter (fun ch => ch == '\n')).length
      = rs.length + 1
    rw [List.filter_append, List.length_append,
      count_nl_rowChars r (h r (List.mem_cons_self r rs)),
      ih (fun r2 hr2 => h r2 (List.mem_cons_of_mem r hr2))]
    omega

theorem nul_free_rowChars (r : RawRow) (h : RowWF r) :
    ∀ c ∈ rowChars r, c ≠ nulChar := by
  obtain ⟨-, -, -, -, h5, -, h7, -, h9⟩ := h
  intro c hc
  unfold rowChars at hc
  rcases List.mem_append.mp hc with hc | hc
  · unfold padTo at hc
    rcases List.mem_append.mp hc with hc | hc
    · have hd := natToChars_all_dec r.idVal c hc
      intro he
      subst he
      exact absurd hd (by decide)
    · rw [List.eq_of_mem_replicate hc]
      decide
  · rcases List.mem_append.mp hc with hc | hc
    · unfold padTo at hc
      rcases List.mem_append.mp hc with hc | hc
      · exact (h5 c hc).2.1
      · rw [List.eq_of_mem_replicate hc]
        decide
    · rcases List.mem_append.mp hc with hc | hc
      · exact (stateToken_chars r.state c hc).2
      · rcases List.mem_append.mp hc with hc | hc
        · exact (h7 c hc).2
        · rcases List.mem_append.mp hc with hc | hc
          · exact (h9 c hc).2
          · rw [List.mem_singleton.mp hc]
            decide

/-! ### The id-field search and the restored buffer -/

theorem findSpaceIdx_eq :
    ∀ (n k0 : Nat) (s : List Char) (d : Nat),
      k0 ≤ d → d < k0 + n →
      (∀ j, k0 ≤ j → j < d → charAt s j ≠ ' ') →
      charAt s d = ' ' →
      findSpaceIdx s k0 n = some d := by
  intro n
  induction n with
  | zero => intro k0 s d h1 h2; omega
  | succ n ih =>
    intro k0 s d h1 h2 h3 h4
    unfold findSpaceIdx
    by_cases hk : k0 = d
    · subst hk
      rw [if_pos h4]
    · rw [if_neg (h3 k0 (le_refl k0) (by omega))]
      exact ih (k0 + 1) s d (by omega) (by omega)
        (fun j hj1 hj2 => h3 j (by omega) hj2) h4

theorem findSpaceIdx_none :
    ∀ (n k0 : Nat) (s : List Char),
      (∀ j, k0 ≤ j → j < k0 + n → charAt s j ≠ ' ') →
      findSpaceIdx s k0 n = none := by
  intro n
  induction n with
  | zero => intro k0 s h; rfl
  | succ n ih =>
    intro k0 s h
    unfold findSpaceIdx
    rw [if_neg (h k0 (le_refl k0) (by omega))]
    exact ih (k0 + 1) s (fun j hj1 hj2 => h j (by omega) (by omega))

theorem charAt_setAt_ne (s : List Char) (p : Nat) (x : Char) (i : Nat)
    (h : p ≠ i) : charAt (setAt s p x) i = charAt s i := by
  unfold charAt setAt
  simp [List.getD_eq_getElem?_getD, List.getElem?_set_ne h]

/-- NUL-ing offset 8 and then restoring the byte that was read leaves
the suffix from offset 8 unchanged. -/
theorem setAt_restore_drop8 (s1 : List Char) :
    (setAt (setAt s1 8 nulChar) 8 (charAt s1 8)).drop 8 = s1.drop 8 := by
  unfold setAt
  rw [List.set_set, List.drop_set, if_neg (by omega)]
  rw [show (8 - 8 : Nat) = 0 from rfl]
  rw [show charAt s1 8 = charAt (s1.drop 8) 0 from (charAt_drop_zero s1 8).symm]
  exact set_head_self _

/-! ### Parsing one well-formed row -/

theorem parseRow_wf (r : RawRow) (tail : List Char) (h : RowWF r) :
    (parseRow (rowChars r ++ tail)).1.id = (r.idVal : Int) ∧
    (parseRow (rowChars r ++ tail)).1.name = r.name ∧
    (parseRow (rowChars r ++ tail)).1.state = stateCode r.state ∧
    (parseRow (rowChars r ++ tail)).1.uuid = 0 ∧
    (parseRow (rowChars r ++ tail)).2.drop 97 = tail := by
  obtain ⟨h1, h2, h3, h4, h5, h6, h7, h8, h9⟩ := h
  set s := rowChars r ++ tail with hsdef
  set D := natToChars r.idVal with hD
  have hd1 : 1 ≤ D.length := by
    have := natToChars_ne_nil r.idVal
    rw [← hD] at this
    cases hx : D with
    | nil => exact absurd hx this
    | cons c cs => simp [hx]
  -- the row split into its fields, with the id digits separated from
  -- their padding
  have hs : s = D ++ (List.replicate (8 - D.length) ' '
      ++ (padTo 24 r.name ++ (stateToken r.state
        ++ (r.assignedField ++ (r.failedField ++ ('\n' :: tail)))))) := by
    rw [hsdef]
    unfold rowChars padTo
    simp only [List.append_assoc, List.cons_append, List.nil_append, hD]
  have hdigit : ∀ j, j < D.length → charAt s j ≠ ' ' := by
    intro j hj
    rw [hs, charAt_append_lt _ _ _ (by omega)]
    exact dec_not_space _ (natToChars_all_dec r.idVal _ (charAt_mem D j hj))
  -- the suffix from offset 8 is the name field onward
  have hpad8len : (padTo 8 D).length = 8 := padTo_length 8 D h1
  have hs8 : s = padTo 8 D ++ (padTo 24 r.name ++ (stateToken r.state
      ++ (r.assignedField ++ (r.failedField ++ ('\n' :: tail))))) := by
    rw [hsdef]
    unfold rowChars
    simp only [List.append_assoc, List.cons_append, List.singleton_append,
      List.nil_append, hD]
  have hdrop8 : s.drop 8 = padTo 24 r.name ++ (stateToken r.state
      ++ (r.assignedField ++ (r.failedField ++ ('\n' :: tail)))) := by
    rw [hs8, List.drop_left' hpad8len]
  have hname24 : (padTo 24 r.name).length = 24 := padTo_length 24 r.name h4
  have hdrop32 : s.drop 32 = stateToken r.state
      ++ (r.assignedField ++ (r.failedField ++ ('\n' :: tail))) := by
    rw [show (32 : Nat) = 8 + 24 from rfl, drop_add, hdrop8,
      List.drop_left' hname24]
  have hdrop97 : s.drop 97 = tail := by
    rw [show (97 : Nat) = 32 + 65 from rfl, drop_add, hdrop32]
    rw [show (65 : Nat) = 16 + 49 from rfl, drop_add,
      List.drop_left' (stateToken_length r.state)]
    rw [show (49 : Nat) = 24 + 25 from rfl, drop_add, List.drop_left' h6]
    rw [show (25 : Nat) = 24 + 1 from rfl, drop_add, List.drop_left' h8]
    rfl
  -- the id-field mutations and the id parse, by cases on whether the
  -- digits fill the field
  have hid_and_s1 : rowId s = (r.idVal : Int) ∧
      ∃ s1, (match findSpaceIdx s 0 9 with
              | some k => setAt s k nulChar
              | none => s) = s1 ∧ s1.drop 8 = s.drop 8 := by
    rcases Nat.lt_or_ge D.length 8 with hd8 | hd8
    · -- digits shorter than the field: the first padding space is NUL-ed
      have hsp : charAt s D.length = ' ' := by
        rw [hs, charAt_append_self]
        have : 8 - D.length = (8 - D.length - 1) + 1 := by omega
        rw [this, List.replicate_succ]
        rfl
      have hfs : findSpaceIdx s 0 9 = some D.length :=
        findSpaceIdx_eq 9 0 s D.length (by omega) (by omega)
          (fun j hj1 hj2 => hdigit j hj2) hsp
      have hs1 : setAt s D.length nulChar
          = D ++ nulChar :: ((List.replicate (8 - D.length) ' ').tail
            ++ (padTo 24 r.name ++ (stateToken r.state
              ++ (r.assignedField ++ (r.failedField ++ ('\n' :: tail)))))) := by
        rw [hs]
        unfold setAt
        rw [List.set_append_right _ _ (by omega)]
        rw [Nat.sub_self]
        have : 8 - D.length = (8 - D.length - 1) + 1 := by omega
        rw [this, List.replicate_succ]
        rfl
      constructor
      · unfold rowId
        rw [hfs]
        simp only
        have hs2 : setAt (setAt s D.length nulChar) 8 nulChar
            = D ++ nulChar :: (((List.replicate (8 - D.length) ' ').tail
              ++ (padTo 24 r.name ++ (stateToken r.state
                ++ (r.assignedField ++ (r.failedField ++ ('\n' :: tail)))))).set
              (8 - D.length - 1) nulChar) := by
          rw [hs1]
          unfold setAt
          rw [List.set_append_right _ _ (by omega)]
          have h10 : 8 - D.length = (8 - D.length - 1) + 1 := by omega
          rw [h10, List.set_cons_succ]
          simp only [Nat.add_sub_cancel]
        rw [hs2, hD, virStrToLong_i_full_natToChars r.idVal _ (by omega)]
      · refine ⟨setAt s D.length nulChar, by rw [hfs], ?_⟩
        exact drop_setAt_lt s D.length nulChar 8 hd8
    · -- digits fill the field exactly: no space among offsets 0..8
      have hd8' : D.length = 8 := by omega
      obtain ⟨c0, nr, hn⟩ : ∃ c0 nr, r.name = c0 :: nr := by
        cases hx : r.name with
        | nil => exact absurd hx h3
        | cons a b => exact ⟨a, b, rfl⟩
      have hn0 : charAt s 8 ≠ ' ' := by
        have hc8 : charAt s 8 = charAt (s.drop 8) 0 := (charAt_drop_zero s 8).symm
        have hcc : charAt (padTo 24 r.name ++ (stateToken r.state
            ++ (r.assignedField ++ (r.failedField ++ ('\n' :: tail))))) 0
            = c0 := by
          unfold padTo
          rw [hn]
          rfl
        rw [hc8, hdrop8, hcc]
        exact (h5 c0 (by rw [hn]; exact List.mem_cons_self c0 nr)).1
      have hfs : findSpaceIdx s 0 9 = none := by
        apply findSpaceIdx_none
        intro j hj1 hj2
        rcases Nat.lt_or_ge j 8 with hj8 | hj8
        · exact hdigit j (by omega)
        · have : j = 8 := by omega
          subst this
          exact hn0
      constructor
      · unfold rowId
        rw [hfs]
        simp only
        have hs2 : setAt s 8 nulChar
            = D ++ nulChar :: ((nr
              ++ List.replicate (24 - (c0 :: nr).length) ' ')
              ++ (stateToken r.state ++ (r.assignedField
                ++ (r.failedField ++ ('\n' :: tail))))) := by
          rw [hs]
          unfold setAt padTo
          rw [hn]
          rw [List.set_append_right _ _ (by omega)]
          rw [show 8 - D.length = 0 from by omega, List.replicate_zero,
            List.nil_append]
          rfl
        rw [hs2, hD, virStrToLong_i_full_natToChars r.idVal _ (by omega)]
      · exact ⟨s, by rw [hfs], rfl⟩
  obtain ⟨hid, s1, hs1eq, hs1drop⟩ := hid_and_s1
  have hbufdrop8 : (rowBuf s).drop 8 = s.drop 8 := by
    unfold rowBuf
    rw [hs1eq]
    rw [setAt_restore_drop8 s1]
    exact hs1drop
  have hbufdrop32 : (rowBuf s).drop 32 = s.drop 32 :=
    rowBuf_drop s 32 (by omega)
  have hbufdrop97 : (rowBuf s).drop 97 = s.drop 97 :=
    rowBuf_drop s 97 (by omega)
  have hinner : ((padTo 24 r.name).takeWhile (fun ch => ch ≠ nulChar))
      = padTo 24 r.name := by
    apply takeWhile_all
    intro c hc
    unfold padTo at hc
    rcases List.mem_append.mp hc with hc | hc
    · simp only [decide_eq_true_eq]
      exact (h5 c hc).2.1
    · rw [List.eq_of_mem_replicate hc]
      decide
  have houter : ((padTo 24 r.name).takeWhile (fun ch => ch ≠ ' '))
      = r.name := by
    unfold padTo
    rw [takeWhile_append_all _ _ (by
      intro c hc
      simp only [decide_eq_true_eq]
      exact (h5 c hc).1)]
    rw [takeWhile_replicate_space, List.append_nil]
  have hnameeq : rowName (rowBuf s) = r.name := by
    unfold rowName
    rw [hbufdrop8, hdrop8, List.take_left' hname24, hinner, houter]
  have hstateeq : rowState ((rowBuf s).drop 32) = stateCode r.state := by
    rw [hbufdrop32, hdrop32]
    cases r.state <;> rfl
  refine ⟨?_, ?_, ?_, ?_, ?_⟩
  · rw [parseRow_fst_id]
    exact hid
  · rw [parseRow_fst_name]
    exact hnameeq
  · rw [parseRow_fst_state]
    exact hstateeq
  · exact parseRow_fst_uuid s
  · rw [parseRow_snd, hbufdrop97, hdrop97]

/-! ### The whole listing -/

theorem rowsChars_cons (r : RawRow) (rs : List RawRow) :
    rowsChars (r :: rs) = rowChars r ++ rowsChars rs := rfl

theorem nul_free_rowsChars (rows : List RawRow) (h : ∀ r ∈ rows, RowWF r) :
    ∀ c ∈ rowsChars rows, c ≠ nulChar := by
  induction rows with
  | nil => intro c hc; exact absurd hc (List.not_mem_nil c)
  | cons r rs ih =>
    intro c hc
    rw [rowsChars_cons] at hc
    rcases List.mem_append.mp hc with hc | hc
    · exact nul_free_rowChars r (h r (List.mem_cons_self r rs)) c hc
    · exact ih (fun r2 h2 => h r2 (List.mem_cons_of_mem r h2)) c hc

theorem findIdx_nl_header :
    ∀ (hdr t : List Char), (∀ c ∈ hdr, c ≠ '\n') →
      (hdr ++ '\n' :: t).findIdx (fun ch => ch == '\n') = hdr.length := by
  intro hdr
  induction hdr with
  | nil =>
    intro t h
    simp [List.findIdx_cons]
  | cons c cs ih =>
    intro t h
    rw [List.cons_append, List.findIdx_cons]
    have hc : (c == '\n') = false := by
      simp only [beq_eq_false_iff_ne, ne_eq]
      exact h c (List.mem_cons_self c cs)
    rw [hc]
    simp only [cond_false, List.length_cons]
    rw [ih t (fun x hx => h x (List.mem_cons_of_mem c hx))]

theorem parseRows_wf :
    ∀ (rows : List RawRow),
      (∀ r ∈ rows, RowWF r) →
      ∀ j r, rows.get? j = some r →
        ∃ cell, (parseRows rows.length (rowsChars rows)).get? j = some cell ∧
          cell.id = (r.idVal : Int) ∧ cell.name = r.name ∧
          cell.state = stateCode r.state ∧ cell.uuid = 0 := by
  intro rows
  induction rows with
  | nil =>
    intro h j r hj
    exact absurd hj (by simp)
  | cons r0 rs ih =>
    intro h j r hj
    obtain ⟨hid, hname, hstate, huuid, hdrop⟩ :=
      parseRow_wf r0 (rowsChars rs) (h r0 (List.mem_cons_self r0 rs))
    have hstep : parseRows (r0 :: rs).length (rowsChars (r0 :: rs))
        = (parseRow (rowChars r0 ++ rowsChars rs)).1
          :: parseRows rs.length (rowsChars rs) := by
      show parseRows (rs.length + 1) (rowChars r0 ++ rowsChars rs) = _
      simp only [parseRows]
      rw [hdrop]
    cases j with
    | zero =>
      simp only [List.get?_cons_zero, Option.some.injEq] at hj
      subst hj
      refine ⟨(parseRow (rowChars r0 ++ rowsChars rs)).1, ?_,
        hid, hname, hstate, huuid⟩
      rw [hstep]
      simp only [List.get?_cons_zero]
    | succ j =>
      simp only [List.get?_cons_succ] at hj
      obtain ⟨cell, hc, p1, p2, p3, p4⟩ :=
        ih (fun r2 h2 => h r2 (List.mem_cons_of_mem r0 h2)) j r hj
      refine ⟨cell, ?_, p1, p2, p3, p4⟩
      rw [hstep]
      simp only [List.get?_cons_succ]
      exact hc

/-- C6: a well-formed listing (one header line, then `N` newline-
terminated fixed-width rows) parses to exactly `N` records in row order:
record `j` carries row `j`'s id and (space-trimmed) name, each of the
four state tokens is mapped to its state constant, and the `uuid` is
left at the zero value. -/
theorem parseListOutput_wellformed (hdr : List Char) (rows : List RawRow)
    (hh : HeaderWF hdr) (hr : ∀ r ∈ rows, RowWF r) :
    (virJailhouseParseListOutput (listingChars hdr rows)).1
        = (rows.length : Int) ∧
      (virJailhouseParseListOutput (listingChars hdr rows)).2.length
        = rows.length ∧
      ∀ j r, rows.get? j = some r →
        ∃ cell, (virJailhouseParseListOutput (listingChars hdr rows)).2.get? j
            = some cell ∧
          cell.id = (r.idVal : Int) ∧ cell.name = r.name ∧
          cell.state = stateCode r.state ∧ cell.uuid = 0 := by
  have hnulfree : ∀ c ∈ listingChars hdr rows, c ≠ nulChar := by
    intro c hc
    unfold listingChars at hc
    rcases List.mem_append.mp hc with hc | hc
    · exact (hh c hc).2
    · rcases List.mem_cons.mp hc with hc | hc
      · subst hc; decide
      · exact nul_free_rowsChars rows hr c hc
  have htake : (listingChars hdr rows).takeWhile (fun ch => ch ≠ nulChar)
      = listingChars hdr rows := by
    apply takeWhile_all
    intro c hc
    simp only [decide_eq_true_eq]
    exact hnulfree c hc
  have hnl : ((listingChars hdr rows).filter (fun ch => ch == '\n')).length
      = rows.length + 1 := by
    unfold listingChars
    rw [List.filter_append]
    rw [filter_nl_nil (fun c hc => (hh c hc).1)]
    rw [show List.filter (fun ch => ch == '\n') ('\n' :: rowsChars rows)
        = '\n' :: List.filter (fun ch => ch == '\n') (rowsChars rows) from by
      rw [List.filter_cons]
      simp]
    rw [List.nil_append, List.length_cons, count_nl_rowsChars rows hr]
  have hfind : (listingChars hdr rows).findIdx (fun ch => ch == '\n')
      = hdr.length :=
    findIdx_nl_header hdr (rowsChars rows) (fun c hc => (hh c hc).1)
  have hdropHdr : (listingChars hdr rows).drop (hdr.length + 1)
      = rowsChars rows := by
    unfold listingChars
    rw [drop_add, List.drop_left]
    rfl
  have hmain : virJailhouseParseListOutput (listingChars hdr rows)
      = ((rows.length : Int), parseRows rows.length (rowsChars rows)) := by
    unfold virJailhouseParseListOutput
    simp only [htake, hnl, hfind, hdropHdr]
    rw [if_neg (by push_cast; omega)]
    have h1 : ((rows.length + 1 : Nat) : Int) - 1 = (rows.length : Int) := by
      push_cast
      ring
    rw [h1, Int.toNat_natCast]
  rw [hmain]
  refine ⟨rfl, parseRows_length rows.length (rowsChars rows), ?_⟩
  exact parseRows_wf rows hr

/-! ## Names, `strncmp` and `find?` -/

/-- What is true of every name stored in a `virJailhouseCell`: it fits
the 24-character buffer and contains no NUL. -/
def NameWF (nm : List Char) : Prop := nm.length ≤ 24 ∧ nulChar ∉ nm

theorem strncmpEq_iff_eq :
    ∀ (n : Nat) (a b : List Char), a.length < n → b.length < n →
      nulChar ∉ a → nulChar ∉ b →
      (strncmpEq n a b = true ↔ a = b) := by
  intro n
  induction n with
  | zero => intro a b ha hb; omega
  | succ n ih =>
    intro a b ha hb hna hnb
    cases a with
    | nil =>
      cases b with
      | nil =>
        rw [show strncmpEq (n + 1) ([] : List Char) [] = true from rfl]
        simp
      | cons b0 bs =>
        have hb0 : b0 ≠ nulChar := fun h => hnb (h ▸ List.mem_cons_self b0 bs)
        have hfalse : strncmpEq (n + 1) [] (b0 :: bs) = false := by
          show (if nulChar ≠ b0 then false
            else if nulChar = nulChar then true
            else strncmpEq n ([] : List Char).tail (b0 :: bs).tail) = false
          rw [if_pos (Ne.symm hb0)]
        rw [hfalse]
        simp
    | cons a0 as =>
      have ha0 : a0 ≠ nulChar := fun h => hna (h ▸ List.mem_cons_self a0 as)
      cases b with
      | nil =>
        have hfalse : strncmpEq (n + 1) (a0 :: as) [] = false := by
          show (if a0 ≠ nulChar then false
            else if a0 = nulChar then true
            else strncmpEq n (a0 :: as).tail ([] : List Char).tail) = false
          rw [if_pos ha0]
        rw [hfalse]
        simp
      | cons b0 bs =>
        by_cases hab : a0 = b0
        · subst hab
          have hstep : strncmpEq (n + 1) (a0 :: as) (a0 :: bs)
              = strncmpEq n as bs := by
            show (if a0 ≠ a0 then false
              else if a0 = nulChar then true
              else strncmpEq n as bs) = strncmpEq n as bs
            rw [if_neg (fun h => h rfl), if_neg ha0]
          rw [hstep]
          rw [ih as bs (by simp only [List.length_cons] at ha; omega)
            (by simp only [List.length_cons] at hb; omega)
            (fun h => hna (List.mem_cons_of_mem a0 h))
            (fun h => hnb (List.mem_cons_of_mem a0 h))]
          constructor
          · intro h
            rw [h]
          · intro h
            exact (List.cons.injEq a0 as a0 bs |>.mp h).2
        · have hfalse : strncmpEq (n + 1) (a0 :: as) (b0 :: bs) = false := by
            show (if a0 ≠ b0 then false
              else if a0 = nulChar then true
              else strncmpEq n as bs) = false
            rw [if_pos hab]
          rw [hfalse]
          constructor
          · intro h
            exact absurd h (by simp)
          · intro h
            exact absurd ((List.cons.injEq a0 as b0 bs |>.mp h).1) hab

theorem strncmpEq_name (x nm : List Char) (hx : NameWF x) (hnm : NameWF nm) :
    strncmpEq 25 x nm = (x == nm) := by
  have hiff := strncmpEq_iff_eq 25 x nm (by have := hx.1; omega)
    (by have := hnm.1; omega) hx.2 hnm.2
  by_cases he : x = nm
  · subst he
    rw [beq_self_eq_true]
    exact hiff.mpr rfl
  · rw [beq_eq_false_iff_ne.mpr he]
    cases hb : strncmpEq 25 x nm with
    | false => rfl
    | true => exact absurd (hiff.mp hb) he

theorem find?_congr {α : Type} (p q : α → Bool) :
    ∀ l : List α, (∀ x ∈ l, p x = q x) → l.find? p = l.find? q := by
  intro l
  induction l with
  | nil => intro h; rfl
  | cons a l ih =>
    intro h
    cases hq : q a with
    | false =>
      have hp : p a = false := by rw [h a (List.mem_cons_self a l), hq]
      rw [List.find?_cons_of_neg _ (by simp [hp]),
        List.find?_cons_of_neg _ (by simp [hq])]
      exact ih fun x hx => h x (List.mem_cons_of_mem a hx)
    | true =>
      have hp : p a = true := by rw [h a (List.mem_cons_self a l), hq]
      rw [List.find?_cons_of_pos _ hp, List.find?_cons_of_pos _ hq]

theorem find?_name_eq (cells : List VirJailhouseCell) (nm : List Char)
    (hw : ∀ c ∈ cells, NameWF c.name) (hnm : NameWF nm) :
    cells.find? (fun c => strncmpEq 25 c.name nm)
      = cells.find? (fun c => c.name == nm) :=
  find?_congr _ _ cells (fun c hc => strncmpEq_name c.name nm (hw c hc) hnm)

/-! ### Every parsed name is well-formed -/

theorem rowName_wf (s3 : List Char) : NameWF (rowName s3) := by
  constructor
  · calc (rowName s3).length
        ≤ (((s3.drop 8).take 24).takeWhile
            (fun ch => ch ≠ nulChar)).length :=
          (List.takeWhile_sublist _).length_le
      _ ≤ ((s3.drop 8).take 24).length :=
          (List.takeWhile_sublist _).length_le
      _ ≤ 24 := List.length_take_le _ _
  · intro hmem
    have h2 := (List.takeWhile_sublist (fun ch => ch ≠ ' ')).subset hmem
    have h3 := List.mem_takeWhile_imp h2
    simp at h3

theorem parseRows_name_wf :
    ∀ (n : Nat) (s : List Char) (j : Nat) (cell : VirJailhouseCell),
      (parseRows n s).get? j = some cell → NameWF cell.name := by
  intro n
  induction n with
  | zero => intro s j cell h; exact absurd h (by simp [parseRows])
  | succ n ih =>
    intro s j cell h
    rw [show parseRows (n + 1) s
        = (parseRow s).1 :: parseRows n ((parseRow s).2.drop 97) from rfl] at h
    cases j with
    | zero =>
      simp only [List.get?_cons_zero, Option.some.injEq] at h
      subst h
      rw [parseRow_fst_name]
      exact rowName_wf _
    | succ j =>
      simp only [List.get?_cons_succ] at h
      exact ih _ j cell h

theorem parseListOutput_snd_cases (out : List Char) :
    (virJailhouseParseListOutput out).2 = [] ∨
    ∃ n s, (virJailhouseParseListOutput out).2 = parseRows n s := by
  unfold virJailhouseParseListOutput
  by_cases hc : ((((out.takeWhile (fun ch => ch ≠ nulChar)).filter
      (fun ch => ch == '\n')).length : Int) - 1) < 0
  · left
    rw [if_pos hc]
  · right
    exact ⟨_, _, by rw [if_neg hc]⟩

theorem parseListOutput_name_wf (out : List Char) (j : Nat)
    (cell : VirJailhouseCell)
    (h : (virJailhouseParseListOutput out).2.get? j = some cell) :
    NameWF cell.name := by
  rcases parseListOutput_snd_cases out with hsnd | ⟨n, s, hsnd⟩
  · rw [hsnd] at h
    exact absurd h (by simp)
  · rw [hsnd] at h
    exact parseRows_name_wf n s j cell h

/-! ### The reconciliation map -/

theorem mapWithIndex_length {α β : Type} (f : Nat → α → β) :
    ∀ (l : List α) (j0 : Nat), (mapWithIndex f j0 l).length = l.length := by
  intro l
  induction l with
  | nil => intro j0; rfl
  | cons a l ih =>
    intro j0
    show (f j0 a :: mapWithIndex f (j0 + 1) l).length = l.length + 1
    rw [List.length_cons, ih]

theorem mapWithIndex_get? {α β : Type} (f : Nat → α → β) :
    ∀ (l : List α) (j0 j : Nat),
      (mapWithIndex f j0 l).get? j
        = (l.get? j).map (fun c => f (j0 + j) c) := by
  intro l
  induction l with
  | nil => intro j0 j; rfl
  | cons a l ih =>
    intro j0 j
    cases j with
    | zero =>
      show some (f j0 a) = some (f (j0 + 0) a)
      rw [Nat.add_zero]
    | succ j =>
      show (mapWithIndex f (j0 + 1) l).get? j
        = (l.get? j).map (fun c => f (j0 + (j + 1)) c)
      rw [ih (j0 + 1) j]
      have he : j0 + 1 + j = j0 + (j + 1) := by omega
      rw [he]

theorem virJailhouseSetUUID_found (cells : List VirJailhouseCell)
    (cell prev : VirJailhouseCell) (g : Nat)
    (h : cells.find? (fun cprev => strncmpEq 25 cprev.name cell.name)
      = some prev) :
    virJailhouseSetUUID cells cell g = { cell with uuid := prev.uuid } := by
  unfold virJailhouseSetUUID
  rw [h]

theorem virJailhouseSetUUID_none (cells : List VirJailhouseCell)
    (cell : VirJailhouseCell) (g : Nat)
    (h : cells.find? (fun cprev => strncmpEq 25 cprev.name cell.name)
      = none) :
    virJailhouseSetUUID cells cell g = { cell with uuid := g } := by
  unfold virJailhouseSetUUID
  rw [h]

theorem virJailhouseSetUUID_shape (cells : List VirJailhouseCell)
    (cell : VirJailhouseCell) (g : Nat) :
    ∃ u, virJailhouseSetUUID cells cell g = { cell with uuid := u } := by
  unfold virJailhouseSetUUID
  cases cells.find? (fun cprev => strncmpEq 25 cprev.name cell.name) with
  | none => exact ⟨g, rfl⟩
  | some prev => exact ⟨prev.uuid, rfl⟩

theorem getCurrentCellList_some_count (driver : VirJailhouseDriver)
    (out : List Char) (fresh : Nat → Nat) :
    (virJailhouseGetCurrentCellList driver (some out) fresh).lastQueryCellsCount
      = (virJailhouseParseListOutput out).1 := rfl

theorem getCurrentCellList_some_cells (driver : VirJailhouseDriver)
    (out : List Char) (fresh : Nat → Nat) :
    (virJailhouseGetCurrentCellList driver (some out) fresh).lastQueryCells
      = mapWithIndex
          (fun j c => virJailhouseSetUUID driver.lastQueryCells c (fresh j))
          0 (virJailhouseParseListOutput out).2 := rfl

theorem getCurrentCellList_none (driver : VirJailhouseDriver)
    (fresh : Nat → Nat) :
    virJailhouseGetCurrentCellList driver none fresh
      = { lastQueryCellsCount := -1, lastQueryCells := [] } := rfl

instance (nm : List Char) : Decidable (NameWF nm) := by
  unfold NameWF
  infer_instance

instance (r : RawRow) : Decidable (RowWF r) := by
  unfold RowWF
  infer_instance

instance (hdr : List Char) : Decidable (HeaderWF hdr) := by
  unfold HeaderWF
  infer_instance

/-- A well-formed demo row: id 0, name vm-a, running, CPUs 0-1. -/
def demoRawA : RawRow :=
  { idVal := 0, name := "vm-a".data, state := .running,
    assignedField := "0-1                     ".data,
    failedField := "                        ".data }

/-- A second well-formed demo row: id 1, name vm-b, shut down, no CPUs. -/
def demoRawB : RawRow :=
  { idVal := 1, name := "vm-b".data, state := .shutDown,
    assignedField := "                        ".data,
    failedField := "                        ".data }

/-- A single-row well-formed listing. -/
def demoListingA : List Char := listingChars demoHeader [demoRawA]

/-- What the parser produces for `demoRawA`. -/
def demoParsedA : VirJailhouseCell :=
  { id := 0, name := "vm-a".data, state := 0, assignedCPUs := some [0, 1],
    assignedCPUsLength := 2, failedCPUs := none, failedCPUsLength := 0,
    uuid := 0 }

/-- A previous-snapshot record named vm-a with uuid 7. -/
def demoPrevA : VirJailhouseCell :=
  { id := 0, name := "vm-a".data, state := 0, assignedCPUs := some [0, 1],
    assignedCPUsLength := 2, failedCPUs := none, failedCPUsLength := 0,
    uuid := 7 }

/-- A second previous-snapshot record with the same name vm-a, uuid 9. -/
def demoPrevA2 : VirJailhouseCell := { demoPrevA with id := 6, uuid := 9 }

/-- A previous-snapshot record named vm-b, uuid 7. -/
def demoPrevB : VirJailhouseCell := { demoPrevA with name := "vm-b".data }

/-- A demo uuid oracle. -/
def demoFresh : Nat → Nat := fun _ => 99

/-- A demo previous snapshot holding one cell. -/
def demoPrevDriver : VirJailhouseDriver := ⟨1, [demoPrevA]⟩

/-- Witness for C6 at a concrete two-row listing. -/
theorem parseListOutput_wellformed_witness :
    (virJailhouseParseListOutput
        (listingChars demoHeader [demoRawA, demoRawB])).1 = 2 ∧
    (virJailhouseParseListOutput
        (listingChars demoHeader [demoRawA, demoRawB])).2.length = 2 ∧
    ∃ cell, (virJailhouseParseListOutput
          (listingChars demoHeader [demoRawA, demoRawB])).2.get? 1
        = some cell ∧
      cell.id = 1 ∧ cell.name = "vm-b".data ∧
      cell.state = STATESHUTDOWN ∧ cell.uuid = 0 := by
  obtain ⟨h1, h2, h3⟩ := parseListOutput_wellformed demoHeader
    [demoRawA, demoRawB] (by decide) (by decide)
  obtain ⟨cell, hc, hid, hname, hstate, huuid⟩ := h3 1 demoRawB rfl
  refine ⟨by rw [h1]; rfl, by rw [h2]; rfl, cell, hc, ?_, ?_, ?_, huuid⟩
  · rw [hid]
    rfl
  · rw [hname]
    rfl
  · rw [hstate]
    rfl

/-! ## Claim C1: uuid preservation across a refresh -/

/-- C1: on a refresh whose listing parsed, each new record whose
(space-trimmed) name matches the name of some record of the previous
snapshot receives exactly the uuid of the first such match in
previous-snapshot order (`List.find?` returns the first hit, as the C
loop in `virJailhouseSetUUID` does), regardless of its new id, state or
CPU fields: the stored record is the parsed one with only `uuid`
replaced by the previous record's uuid. -/
theorem refresh_preserves_uuid (driver : VirJailhouseDriver)
    (out : List Char) (fresh : Nat → Nat) (j : Nat)
    (cell prev : VirJailhouseCell)
    (hw : ∀ c ∈ driver.lastQueryCells, NameWF c.name)
    (hj : (virJailhouseParseListOutput out).2.get? j = some cell)
    (hfind : driver.lastQueryCells.find? (fun c => c.name == cell.name)
      = some prev) :
    (virJailhouseGetCurrentCellList driver (some out)
        fresh).lastQueryCells.get? j
      = some { cell with uuid := prev.uuid } := by
  have hcw : NameWF cell.name := parseListOutput_name_wf out j cell hj
  have hfound : driver.lastQueryCells.find?
      (fun cprev => strncmpEq 25 cprev.name cell.name) = some prev := by
    rw [find?_name_eq driver.lastQueryCells cell.name hw hcw]
    exact hfind
  rw [getCurrentCellList_some_cells, mapWithIndex_get?, hj]
  show some (virJailhouseSetUUID driver.lastQueryCells cell (fresh (0 + j)))
    = some { cell with uuid := prev.uuid }
  rw [virJailhouseSetUUID_found driver.lastQueryCells cell prev
    (fresh (0 + j)) hfound]

/-! ## Claim C7: a reappearing name gets a fresh uuid -/

/-- C7: when a cell name is absent from the previous snapshot (as after
a cycle in which it did not appear) and present in the new parse, the
record stored for it carries the freshly generated uuid — the oracle
value `fresh j` of `virUUIDGenerate` — and not any uuid retrieved from
the past: under the (probabilistic) assumption that the generated value
avoids the uuids the name held before, the new uuid differs from every
one of them. -/
theorem reappearance_fresh_uuid (driver : VirJailhouseDriver)
    (out : List Char) (fresh : Nat → Nat) (j : Nat)
    (cell : VirJailhouseCell) (priorUuids : List Nat)
    (hw : ∀ c ∈ driver.lastQueryCells, NameWF c.name)
    (habsent : ∀ c ∈ driver.lastQueryCells, c.name ≠ cell.name)
    (hj : (virJailhouseParseListOutput out).2.get? j = some cell)
    (hfresh : fresh j ∉ priorUuids) :
    ∃ c2, (virJailhouseGetCurrentCellList driver (some out)
          fresh).lastQueryCells.get? j = some c2 ∧
      c2.uuid = fresh j ∧ ∀ u ∈ priorUuids, c2.uuid ≠ u := by
  have hcw : NameWF cell.name := parseListOutput_name_wf out j cell hj
  have hnone : driver.lastQueryCells.find?
      (fun cprev => strncmpEq 25 cprev.name cell.name) = none := by
    rw [find?_name_eq driver.lastQueryCells cell.name hw hcw]
    apply List.find?_eq_none.mpr
    intro c hc
    simp only [beq_iff_eq]
    exact habsent c hc
  refine ⟨{ cell with uuid := fresh j }, ?_, rfl, ?_⟩
  · rw [getCurrentCellList_some_cells, mapWithIndex_get?, hj]
    show some (virJailhouseSetUUID driver.lastQueryCells cell (fresh (0 + j)))
      = some { cell with uuid := fresh j }
    rw [Nat.zero_add,
      virJailhouseSetUUID_none driver.lastQueryCells cell (fresh j) hnone]
  · intro u hu
    show fresh j ≠ u
    intro he
    exact hfresh (he ▸ hu)

/-! ## Claim C9: reconciliation is a frame on everything but uuid -/

/-- C9: reconciliation modifies only the uuid field.  After a refresh
whose listing parsed, the stored list has one record per parsed record,
and record `j` agrees with parsed record `j` on id, name, state, both
CPU lists and both CPU counts — whether or not a previous record with
the same name existed. -/
theorem reconcile_only_uuid (driver : VirJailhouseDriver)
    (out : List Char) (fresh : Nat → Nat) :
    (virJailhouseGetCurrentCellList driver (some out)
        fresh).lastQueryCells.length
      = (virJailhouseParseListOutput out).2.length ∧
    ∀ j cell, (virJailhouseParseListOutput out).2.get? j = some cell →
      ∃ c2, (virJailhouseGetCurrentCellList driver (some out)
            fresh).lastQueryCells.get? j = some c2 ∧
        c2.id = cell.id ∧ c2.name = cell.name ∧ c2.state = cell.state ∧
        c2.assignedCPUs = cell.assignedCPUs ∧
        c2.assignedCPUsLength = cell.assignedCPUsLength ∧
        c2.failedCPUs = cell.failedCPUs ∧
        c2.failedCPUsLength = cell.failedCPUsLength := by
  constructor
  · rw [getCurrentCellList_some_cells, mapWithIndex_length]
  · intro j cell hj
    obtain ⟨u, hu⟩ := virJailhouseSetUUID_shape driver.lastQueryCells cell
      (fresh (0 + j))
    refine ⟨{ cell with uuid := u }, ?_, rfl, rfl, rfl, rfl, rfl, rfl, rfl⟩
    rw [getCurrentCellList_some_cells, mapWithIndex_get?, hj]
    show some (virJailhouseSetUUID driver.lastQueryCells cell (fresh (0 + j)))
      = some { cell with uuid := u }
    rw [hu]

/-- Witness for C1: two previous cells both named vm-a (uuids 7 and 9);
a refresh listing vm-a again copies the uuid of the first, 7. -/
theorem refresh_preserves_uuid_witness :
    (virJailhouseGetCurrentCellList ⟨2, [demoPrevA, demoPrevA2]⟩
        (some demoListingA) demoFresh).lastQueryCells.get? 0
      = some { demoParsedA with uuid := 7 } := by
  have h := refresh_preserves_uuid ⟨2, [demoPrevA, demoPrevA2]⟩ demoListingA
    demoFresh 0 demoParsedA demoPrevA (by decide) (by decide) (by decide)
  exact h.trans (by decide)

/-- Witness for C7: the previous snapshot only knows vm-b; the listed
vm-a gets the oracle uuid 99, distinct from the uuid 7 it held before
an absence. -/
theorem reappearance_fresh_uuid_witness :
    ∃ c2, (virJailhouseGetCurrentCellList ⟨1, [demoPrevB]⟩
          (some demoListingA) demoFresh).lastQueryCells.get? 0 = some c2 ∧
      c2.uuid = demoFresh 0 ∧ ∀ u ∈ [7], c2.uuid ≠ u :=
  reappearance_fresh_uuid ⟨1, [demoPrevB]⟩ demoListingA demoFresh 0
    demoParsedA [7] (by decide) (by decide) (by decide) (by decide)

/-- Witness for C9 at a concrete refresh. -/
theorem reconcile_only_uuid_witness :
    (virJailhouseGetCurrentCellList demoPrevDriver (some demoListingA)
        demoFresh).lastQueryCells.length
      = (virJailhouseParseListOutput demoListingA).2.length ∧
    ∃ c2, (virJailhouseGetCurrentCellList demoPrevDriver
          (some demoListingA) demoFresh).lastQueryCells.get? 0 = some c2 ∧
      c2.id = demoParsedA.id ∧ c2.name = demoParsedA.name ∧
      c2.state = demoParsedA.state ∧
      c2.assignedCPUs = demoParsedA.assignedCPUs ∧
      c2.assignedCPUsLength = demoParsedA.assignedCPUsLength ∧
      c2.failedCPUs = demoParsedA.failedCPUs ∧
      c2.failedCPUsLength = demoParsedA.failedCPUsLength := by
  have h := reconcile_only_uuid demoPrevDriver demoListingA demoFresh
  exact ⟨h.1, h.2 0 demoParsedA (by decide)⟩

/-! ## Claim C2: the error path of the refresh, in full

In the C, the parse's `count` is a `size_t` initialized to `(size_t)-1`
(line 154).  A failed `virCommandRun` (lines 164-165) jumps to the
error label with that initial count; a no-newline output leaves the
count at `(size_t)-1` after the counting loop, so the `VIR_ALLOC_N` of
`(size_t)-1` records (line 170) fails and also jumps there.  In both
cases `*parsedOutput` is NULL, and the cleanup loop of lines 211-214
reads `(*parsedOutput)[i]` for every `i < count`: a NULL dereference on
its first iteration.  The definitions below model the function with its
error label; a crash (undefined behavior) is `none`. -/

/-- `size_t` arithmetic is modulo `SIZE_T_MOD = 2^64`. -/
def SIZE_T_MOD : Nat := 18446744073709551616

theorem SIZE_T_MOD_eq : SIZE_T_MOD = 18446744073709551616 := rfl

/-- The `size_t` count after the newline-counting loop of lines
166-169: it starts at `(size_t)-1` and gains one per newline of the
captured output. -/
def listCountSz (output : List Char) : Nat :=
  (SIZE_T_MOD - 1
    + ((output.takeWhile (fun ch => ch ≠ nulChar)).filter
        (fun ch => ch == '\n')).length) % SIZE_T_MOD

/-- The cleanup loop of the error label (lines 211-214): for each
`i < count` (counted down here), record `i` of the array is read to
free its CPU arrays.  Reading any record of a NULL array (`none`), or
past the end of an allocated one, is undefined behavior: `none`. -/
def freeCellsLoop (cells : Option (List VirJailhouseCell)) :
    Nat → Option Unit
  | 0 => some ()
  | n + 1 =>
    match cells with
    | none => none
    | some arr => if n < arr.length then freeCellsLoop cells n else none

/-- The error label of `virJailhouseParseListOutput` (lines 210-221) as
both reachable failures enter it: `count = (size_t)-1` and
`*parsedOutput = NULL`.  Were the cleanup loop survivable, the function
would return `(size_t)-1` with the array pointer NULL. -/
def parseListOutputError : Option (Nat × Option (List VirJailhouseCell)) :=
  match freeCellsLoop none (SIZE_T_MOD - 1) with
  | none => none
  | some _ => some (SIZE_T_MOD - 1, none)

/-- `virJailhouseParseListOutput` in full (lines 150-221), error label
included: the result is the returned `size_t` count with the record
array (`none` for a NULL pointer), and the whole result is `none` when
the function crashes.  `runOk` is whether `virCommandRun` succeeded;
the one failing `VIR_ALLOC_N` is the `(size_t)-1`-record request of a
no-newline output. -/
def virJailhouseParseListOutputC (runOk : Bool) (output : List Char) :
    Option (Nat × Option (List VirJailhouseCell)) :=
  if runOk then
    if listCountSz output = SIZE_T_MOD - 1 then parseListOutputError
    else
      some (listCountSz output,
        some (parseRows (listCountSz output)
          (output.drop (output.findIdx (fun ch => ch == '\n') + 1))))
  else parseListOutputError

/-- The reconcile loop of lines 277-278: `virJailhouseSetUUID` on
record `i` for every `i < count`; `none` when the loop indexes past
the array (an out-of-bounds write, undefined behavior).  `j` is the
absolute record index feeding the uuid oracle. -/
def setUUIDLoop (prev : List VirJailhouseCell) (fresh : Nat → Nat) :
    Nat → List VirJailhouseCell → Nat → Option (List VirJailhouseCell)
  | _, arr, 0 => some arr
  | _, [], _ + 1 => none
  | j, c :: cs, n + 1 =>
    match setUUIDLoop prev fresh (j + 1) cs n with
    | none => none
    | some cs2 => some (virJailhouseSetUUID prev c (fresh j) :: cs2)

/-- `virJailhouseGetCurrentCellList` in full (lines 267-286) over the
full parse: a crash inside the parse propagates; a NULL array with a
nonzero count crashes in the reconcile loop (line 277, `cells[i]` with
`cells = NULL`); only a returned array reaches the store of lines
284-285.  The stored `size_t` count is kept as an `Int` — on every
reachable store it is the row count, far below 2^63. -/
def virJailhouseGetCurrentCellListC (driver : VirJailhouseDriver)
    (runOk : Bool) (output : List Char) (fresh : Nat → Nat) :
    Option VirJailhouseDriver :=
  match virJailhouseParseListOutputC runOk output with
  | none => none
  | some (count, none) =>
    if count = 0 then
      some { lastQueryCellsCount := 0, lastQueryCells := [] }
    else none
  | some (count, some arr) =>
    match setUUIDLoop driver.lastQueryCells fresh 0 arr count with
    | none => none
    | some arr2 =>
      some { lastQueryCellsCount := (count : Int), lastQueryCells := arr2 }

theorem freeCellsLoop_null (n : Nat) (h : n ≠ 0) :
    freeCellsLoop none n = none := by
  cases n with
  | zero => exact absurd rfl h
  | succ n => rfl

theorem parseListOutputError_crash : parseListOutputError = none := by
  unfold parseListOutputError
  rw [freeCellsLoop_null (SIZE_T_MOD - 1) (by rw [SIZE_T_MOD_eq]; omega)]

theorem parseListOutputC_false (output : List Char) :
    virJailhouseParseListOutputC false output = none := by
  show parseListOutputError = none
  exact parseListOutputError_crash

theorem parseListOutputC_no_newline (output : List Char)
    (hout : ((output.takeWhile (fun ch => ch ≠ nulChar)).filter
      (fun ch => ch == '\n')).length = 0) :
    virJailhouseParseListOutputC true output = none := by
  have hc : listCountSz output = SIZE_T_MOD - 1 := by
    unfold listCountSz
    rw [hout, Nat.add_zero]
    exact Nat.mod_eq_of_lt (by rw [SIZE_T_MOD_eq]; omega)
  show (if listCountSz output = SIZE_T_MOD - 1 then parseListOutputError
    else _) = none
  rw [if_pos hc]
  exact parseListOutputError_crash

theorem getCurrentCellListC_of_parse_none (driver : VirJailhouseDriver)
    (runOk : Bool) (output : List Char) (fresh : Nat → Nat)
    (h : virJailhouseParseListOutputC runOk output = none) :
    virJailhouseGetCurrentCellListC driver runOk output fresh = none := by
  unfold virJailhouseGetCurrentCellListC
  rw [h]

/-- The success branch of the parse, spelled out: with at least one
newline in the visible output, the count is newlines minus one and the
rows are parsed from past the first newline. -/
theorem parseListOutput_success (output : List Char)
    (h1 : 1 ≤ ((output.takeWhile (fun ch => ch ≠ nulChar)).filter
      (fun ch => ch == '\n')).length) :
    virJailhouseParseListOutput output
      = (((((output.takeWhile (fun ch => ch ≠ nulChar)).filter
          (fun ch => ch == '\n')).length : Int) - 1),
        parseRows (((output.takeWhile (fun ch => ch ≠ nulChar)).filter
            (fun ch => ch == '\n')).length - 1)
          (output.drop (output.findIdx (fun ch => ch == '\n') + 1))) := by
  show (if ((((output.takeWhile (fun ch => ch ≠ nulChar)).filter
        (fun ch => ch == '\n')).length : Int) - 1 < 0)
      then ((-1 : Int), ([] : List VirJailhouseCell))
      else (((((output.takeWhile (fun ch => ch ≠ nulChar)).filter
          (fun ch => ch == '\n')).length : Int) - 1),
        parseRows ((((output.takeWhile (fun ch => ch ≠ nulChar)).filter
            (fun ch => ch == '\n')).length : Int) - 1).toNat
          (output.drop (output.findIdx (fun ch => ch == '\n') + 1))))
    = _
  rw [if_neg (by omega)]
  have ht : ((((output.takeWhile (fun ch => ch ≠ nulChar)).filter
      (fun ch => ch == '\n')).length : Int) - 1).toNat
      = ((output.takeWhile (fun ch => ch ≠ nulChar)).filter
        (fun ch => ch == '\n')).length - 1 := by omega
  rw [ht]

/-- On every output with a newline (and fewer than 2^64 of them, as any
addressable buffer has), the full model returns without crashing and
agrees with the success-path model `virJailhouseParseListOutput`. -/
theorem parseListOutputC_refines (output : List Char)
    (h1 : 1 ≤ ((output.takeWhile (fun ch => ch ≠ nulChar)).filter
      (fun ch => ch == '\n')).length)
    (h2 : ((output.takeWhile (fun ch => ch ≠ nulChar)).filter
      (fun ch => ch == '\n')).length < SIZE_T_MOD) :
    virJailhouseParseListOutputC true output
      = some ((virJailhouseParseListOutput output).1.toNat,
          some (virJailhouseParseListOutput output).2) := by
  have hsz : listCountSz output
      = ((output.takeWhile (fun ch => ch ≠ nulChar)).filter
          (fun ch => ch == '\n')).length - 1 := by
    unfold listCountSz
    rw [SIZE_T_MOD_eq]
    rw [SIZE_T_MOD_eq] at h2
    omega
  have hne : ¬(listCountSz output = SIZE_T_MOD - 1) := by
    rw [hsz, SIZE_T_MOD_eq]
    rw [SIZE_T_MOD_eq] at h2
    omega
  have hp := parseListOutput_success output h1
  rw [hp]
  show (if listCountSz output = SIZE_T_MOD - 1 then parseListOutputError
      else some (listCountSz output,
        some (parseRows (listCountSz output)
          (output.drop (output.findIdx (fun ch => ch == '\n') + 1)))))
    = some ((((((output.takeWhile (fun ch => ch ≠ nulChar)).filter
          (fun ch => ch == '\n')).length : Int) - 1)).toNat,
        some (parseRows (((output.takeWhile (fun ch => ch ≠ nulChar)).filter
            (fun ch => ch == '\n')).length - 1)
          (output.drop (output.findIdx (fun ch => ch == '\n') + 1))))
  rw [if_neg hne, hsz]
  have ht : ((((output.takeWhile (fun ch => ch ≠ nulChar)).filter
      (fun ch => ch == '\n')).length : Int) - 1).toNat
      = ((output.takeWhile (fun ch => ch ≠ nulChar)).filter
        (fun ch => ch == '\n')).length - 1 := by omega
  rw [ht]

theorem setUUIDLoop_full (prev : List VirJailhouseCell)
    (fresh : Nat → Nat) :
    ∀ (arr : List VirJailhouseCell) (j : Nat),
      setUUIDLoop prev fresh j arr arr.length
        = some (mapWithIndex
            (fun i c => virJailhouseSetUUID prev c (fresh i)) j arr) := by
  intro arr
  induction arr with
  | nil => intro j; rfl
  | cons c cs ih =>
    intro j
    show (match setUUIDLoop prev fresh (j + 1) cs cs.length with
      | none => none
      | some cs2 => some (virJailhouseSetUUID prev c (fresh j) :: cs2))
      = some (virJailhouseSetUUID prev c (fresh j)
          :: mapWithIndex
            (fun i x => virJailhouseSetUUID prev x (fresh i)) (j + 1) cs)
    rw [ih (j + 1)]

/-- On every output with a newline, the full refresh returns and stores
exactly what the success-path model stores. -/
theorem getCurrentCellListC_refines (driver : VirJailhouseDriver)
    (output : List Char) (fresh : Nat → Nat)
    (h1 : 1 ≤ ((output.takeWhile (fun ch => ch ≠ nulChar)).filter
      (fun ch => ch == '\n')).length)
    (h2 : ((output.takeWhile (fun ch => ch ≠ nulChar)).filter
      (fun ch => ch == '\n')).length < SIZE_T_MOD) :
    virJailhouseGetCurrentCellListC driver true output fresh
      = some (virJailhouseGetCurrentCellList driver (some output) fresh) := by
  have hp := parseListOutput_success output h1
  have hc : virJailhouseParseListOutputC true output
      = some ((((output.takeWhile (fun ch => ch ≠ nulChar)).filter
            (fun ch => ch == '\n')).length - 1),
          some (parseRows
            (((output.takeWhile (fun ch => ch ≠ nulChar)).filter
              (fun ch => ch == '\n')).length - 1)
            (output.drop (output.findIdx (fun ch => ch == '\n') + 1)))) := by
    rw [parseListOutputC_refines output h1 h2, hp]
    show some ((((((output.takeWhile (fun ch => ch ≠ nulChar)).filter
          (fun ch => ch == '\n')).length : Int) - 1)).toNat,
        some (parseRows
          (((output.takeWhile (fun ch => ch ≠ nulChar)).filter
            (fun ch => ch == '\n')).length - 1)
          (output.drop (output.findIdx (fun ch => ch == '\n') + 1))))
      = _
    have ht : ((((output.takeWhile (fun ch => ch ≠ nulChar)).filter
        (fun ch => ch == '\n')).length : Int) - 1).toNat
        = ((output.takeWhile (fun ch => ch ≠ nulChar)).filter
          (fun ch => ch == '\n')).length - 1 := by omega
    rw [ht]
  unfold virJailhouseGetCurrentCellListC
  have hloop := setUUIDLoop_full driver.lastQueryCells fresh
    (parseRows (((output.takeWhile (fun ch => ch ≠ nulChar)).filter
        (fun ch => ch == '\n')).length - 1)
      (output.drop (output.findIdx (fun ch => ch == '\n') + 1))) 0
  rw [parseRows_length] at hloop
  simp only [hc, hloop]
  have hR : virJailhouseGetCurrentCellList driver (some output) fresh
      = { lastQueryCellsCount :=
            ((((output.takeWhile (fun ch => ch ≠ nulChar)).filter
              (fun ch => ch == '\n')).length : Int) - 1),
          lastQueryCells := mapWithIndex
            (fun i c => virJailhouseSetUUID driver.lastQueryCells c (fresh i))
            0 (parseRows
              (((output.takeWhile (fun ch => ch ≠ nulChar)).filter
                (fun ch => ch == '\n')).length - 1)
              (output.drop (output.findIdx (fun ch => ch == '\n') + 1))) } := by
    show ({ lastQueryCellsCount := (virJailhouseParseListOutput output).1,
            lastQueryCells := mapWithIndex
              (fun j c =>
                virJailhouseSetUUID driver.lastQueryCells c (fresh j))
              0 (virJailhouseParseListOutput output).2 } : VirJailhouseDriver)
      = _
    rw [hp]
  rw [hR]
  have hcast : ((((output.takeWhile (fun ch => ch ≠ nulChar)).filter
      (fun ch => ch == '\n')).length - 1 : Nat) : Int)
      = ((((output.takeWhile (fun ch => ch ≠ nulChar)).filter
        (fun ch => ch == '\n')).length : Int) - 1) := by omega
  rw [hcast]

/-- C2 (a code bug): the claimed post-failure observables are
unreachable.  A refresh whose list command fails, and one whose
captured output has no newline, both reach the error label with
`count = (size_t)-1` and a NULL record array, and the cleanup loop of
lines 211-214 dereferences NULL on its first iteration: the refresh
crashes.  The cache is neither left untouched (the claim) nor cleanly
replaced, and `jailhouseConnectNumOfDomains` /
`jailhouseDomainLookupByID` never run after a failed refresh. -/
theorem refresh_failure_crashes (driver : VirJailhouseDriver)
    (fresh : Nat → Nat) (output : List Char)
    (hout : ((output.takeWhile (fun ch => ch ≠ nulChar)).filter
      (fun ch => ch == '\n')).length = 0) :
    virJailhouseParseListOutputC false output = none ∧
    virJailhouseParseListOutputC true output = none ∧
    virJailhouseGetCurrentCellListC driver false output fresh = none ∧
    virJailhouseGetCurrentCellListC driver true output fresh = none := by
  have h1 := parseListOutputC_false output
  have h2 := parseListOutputC_no_newline output hout
  exact ⟨h1, h2,
    getCurrentCellListC_of_parse_none driver false output fresh h1,
    getCurrentCellListC_of_parse_none driver true output fresh h2⟩

/-- Witness for C2 at a failed command and at the no-newline output
"garbage", over a one-cell cache. -/
theorem refresh_failure_crashes_witness :
    ((("garbage".data.takeWhile (fun ch => ch ≠ nulChar)).filter
      (fun ch => ch == '\n')).length = 0) ∧
    virJailhouseGetCurrentCellListC demoPrevDriver false "garbage".data
      demoFresh = none ∧
    virJailhouseGetCurrentCellListC demoPrevDriver true "garbage".data
      demoFresh = none := by
  have h := refresh_failure_crashes demoPrevDriver demoFresh "garbage".data
    (by decide)
  exact ⟨by decide, h.2.2.1, h.2.2.2⟩

end Jailhouse
